import Mathlib

/-!
# irlb: implicitly restarted Lanczos bidiagonalization (src/irlb.c)

A shallow embedding of the C routine `irlb` and of the wrapper's contract on it.

* Scalars (`double`) are elements of an arbitrary linearly ordered field `α`
  (exact arithmetic); every definition is executable at `α = ℚ`.
* A `double *` buffer is a function `Nat → α` (flat, column-major as in the
  source); `V + j * n` is the view `off V (j * n)`.
* The BLAS level 1/2/3 routines with an algebraic meaning (`ddot`, `dscal`,
  `daxpy`, `dgemv`, `dgemm`) are defined; the routines whose bodies are not
  part of `irlb.c` (`dnrm2`, `dgesdd`, `orthog`, `convtests`,
  `cholmod_sdmult`) are the fields of `Kernels`.
* C `int` values are unbounded integers; `nu`, `restart` and the `k` written
  by `convtests` are natural numbers (a negative value makes the source index
  out of bounds).
* A kernel returns the new contents of every array it writes, scratch arrays
  (`T`, `BW`) included; a local declared without an initialiser (`converged`,
  `S`, `R_F`, `j`, `info`) holds on entry the value found in the state the
  function is run on, which stands for its indeterminate initial value.
* `while` loops are structural recursions on a pass budget that also test the
  loop condition of the source; `irlb` supplies the budget `maxit`, the inner
  loop `work - j`, which the loop can never exceed.
-/

namespace Irlb

variable {α : Type}

/-! ## Buffers and BLAS primitives -/

/-- Accumulation loop `f 0 + f 1 + ... + f (n-1)`. -/
def sumTo [Zero α] [Add α] : Nat → (Nat → α) → α
  | 0, _ => 0
  | n + 1, f => sumTo n f + f n

/-- Pointer arithmetic: the buffer `b + o`. -/
def off (b : Nat → α) (o : Nat) : Nat → α := fun i => b (o + i)

/-- Store `len` entries of `src` at `dst + o` (memcpy / memmove, and the
store of a BLAS result vector). -/
def blit (dst : Nat → α) (o len : Nat) (src : Nat → α) : Nat → α :=
  fun i => if o ≤ i ∧ i < o + len then src (i - o) else dst i

/-- Zero fill `memset (b, 0, len * sizeof (double))`. -/
def memset0 [Zero α] (b : Nat → α) (len : Nat) : Nat → α :=
  fun i => if i < len then 0 else b i

/-- BLAS `ddot` with unit increments. -/
def ddot [Zero α] [Add α] [Mul α] (n : Nat) (x y : Nat → α) : α :=
  sumTo n (fun i => x i * y i)

/-- BLAS `dscal` with unit increment: the scaled entries `0..n-1`. -/
def dscal [Mul α] (a : α) (x : Nat → α) : Nat → α := fun i => a * x i

/-- BLAS `daxpy` with unit increments: the entries of `y + a x`. -/
def daxpy [Add α] [Mul α] (a : α) (x y : Nat → α) : Nat → α :=
  fun i => y i + a * x i

/-- BLAS `dgemv ("n", m, n, 1, A, lda = m, x, 1, 0, y, 1)`: entry `i < m` of `A x`. -/
def dgemvN [Zero α] [Add α] [Mul α] (m n : Nat) (A x : Nat → α) : Nat → α :=
  fun i => sumTo n (fun l => A (i + m * l) * x l)

/-- BLAS `dgemv ("t", m, n, 1, A, lda = m, x, 1, 0, y, 1)`: entry `l < n` of `Aᵀ x`. -/
def dgemvT [Zero α] [Add α] [Mul α] (m _n : Nat) (A x : Nat → α) : Nat → α :=
  fun l => sumTo m (fun i => A (i + m * l) * x i)

/-- BLAS `dgemm ("n", "n", m, n, k, 1, A, lda, B, ldb, 0, C, m)`: the `m * n`
entries of `C = A B`, column-major with leading dimension `m`. -/
def dgemmNN [Zero α] [Add α] [Mul α] (m _n k : Nat) (A : Nat → α) (lda : Nat)
    (B : Nat → α) (ldb : Nat) : Nat → α :=
  fun idx => sumTo k (fun l => A (idx % m + lda * l) * B (l + ldb * (idx / m)))

/-- BLAS `dgemm ("n", "t", m, n, k, 1, A, lda, B, ldb, 0, C, m)`: the `m * n`
entries of `C = A Bᵀ`, column-major with leading dimension `m`. -/
def dgemmNT [Zero α] [Add α] [Mul α] (m _n k : Nat) (A : Nat → α) (lda : Nat)
    (B : Nat → α) (ldb : Nat) : Nat → α :=
  fun idx => sumTo k (fun l => A (idx % m + lda * l) * B (idx / m + ldb * l))

/-! ## External kernels, arguments and state -/

/-- Result of LAPACK `dgesdd` with `jobz = "O"` on a square matrix: the
singular values, the left factor (overwriting the input array), `Vᵀ`, and
the contents left in the two scratch arrays. -/
structure SvdOut (α : Type) where
  S : Nat → α
  U : Nat → α
  VT : Nat → α
  work : Nat → α
  iwork : Nat → α
  info : Int

/-- The routines `irlb` calls whose bodies are outside `irlb.c`. -/
structure Kernels (α : Type) where
  /-- BLAS `dnrm2 (n, x, 1)`. -/
  dnrm2 : Nat → (Nat → α) → α
  /-- `orthog (X, Y, T, xm, xn, yn)`: the new contents of `Y` and of `T`. -/
  orthog : (Nat → α) → (Nat → α) → (Nat → α) → Nat → Nat → Nat → (Nat → α) × (Nat → α)
  /-- LAPACK `dgesdd ("O", work, work, A, work, S, A, work, VT, work, BW, lwork, BI, info)`. -/
  dgesdd : Nat → (Nat → α) → Int → (Nat → α) → (Nat → α) → SvdOut α
  /-- `convtests (j, nu, tol, Smax, res, &k, &converged)`: the values written
  to `k` and `converged` (the last argument is the value of `k` on entry). -/
  convtests : Nat → Nat → α → α → (Nat → α) → Nat → Nat × Int
  /-- `cholmod_sdmult (A, t, 1, 0, b, c)` for the sparse handle of the call:
  transpose flag, rows of `b`, rows of `c`, `b`; returns `c`. -/
  cholmod_sdmult : Int → Nat → Nat → (Nat → α) → (Nat → α)

/-- `dsdmult (transpose, m, n, a, b, c)`: sparse multiply through CHOLMOD. -/
def dsdmult (ker : Kernels α) (transpose : Char) (m n : Nat) (b : Nat → α) : Nat → α :=
  let t : Int := if transpose = 't' then 1 else 0
  let bnrow := if transpose = 't' then m else n
  let cnrow := if transpose = 't' then n else m
  ker.cholmod_sdmult t bnrow cnrow b

/-- The by-value arguments of `irlb` and the read-only input arrays. -/
structure Params (α : Type) where
  A : Nat → α
  mult : Int
  m : Int
  n : Int
  nu : Nat
  work : Int
  maxit : Int
  restart : Nat
  tol : α
  shift : Option α
  center : Option (Nat → α)
  eps : α
  lwork : Int

/-- Memory reachable from `irlb`: the caller's arrays and cells, and the
locals that live across statements.  `ITER`/`MPROD` are the caller's cells
(`none`: never written). -/
structure St (α : Type) where
  scale : Option (Nat → α)
  s : Nat → α
  U : Nat → α
  V : Nat → α
  ITER : Option Int
  MPROD : Option Int
  V1 : Nat → α
  U1 : Nat → α
  W : Nat → α
  F : Nat → α
  B : Nat → α
  BU : Nat → α
  BV : Nat → α
  BS : Nat → α
  BW : Nat → α
  res : Nat → α
  T : Nat → α
  S : α
  R_F : α
  Smax : α
  k : Nat
  converged : Int
  info : Int
  mprod : Int
  iter : Int
  j : Nat

/-- Control flow out of a block of `irlb`: `return code`, `break` out of the
main iteration, or fall through to the next statement. -/
inductive Flow (α : Type) where
  | ret : Int → St α → Flow α
  | brk : St α → Flow α
  | next : St α → Flow α

/-- What a call leaves behind: the returned status and the final memory. -/
structure Out (α : Type) where
  status : Int
  mem : St α

/-! ## The multiply operator (lines 220-258, 277-300, 315-351) -/

section Operator
variable [LinearOrderedField α]

/-- Lines 220-228 and 315-323: `x = V + c * n`, or with `scale` the copy of
that column divided entrywise by `scale`, stored at `scale + n`. -/
def applyScale (n : Nat) (st : St α) (c : Nat) : Option (Nat → α) :=
  match st.scale with
  | none => none
  | some sc => some (blit sc n n (fun kk => st.V (c * n + kk) / sc kk))

/-- The input vector `x` of a forward multiply of column `c`. -/
def inputX (n : Nat) (st : St α) (c : Nat) : Nat → α :=
  match applyScale n st c with
  | none => off st.V (c * n)
  | some sc => off sc n

/-- Forward multiply of column `c` of `V` into column `c` of `W`
(lines 220-258 with `c = j`, lines 315-351 with `c = j + 1`): optional
scale, the dense or sparse product, `mprod++`, optional shift, optional
centering. -/
def forwardMultiply (ker : Kernels α) (p : Params α) (st : St α) (c : Nat) : St α :=
  let m := p.m.toNat
  let n := p.n.toNat
  let x := inputX n st c
  let W1 := blit st.W (c * m) m
    (if p.mult = 1 then dsdmult ker 'n' m n x else dgemvN m n p.A x)
  let W2 := match p.shift with
    | none => W1
    | some sh => blit W1 (c * m) m (fun kk => W1 (c * m + kk) + sh * x kk)
  let W3 := match p.center with
    | none => W2
    | some ce =>
      let beta := ddot n x ce
      blit W2 (c * m) m (fun kk => W2 (c * m + kk) - beta)
  { st with scale := applyScale n st c, W := W3, mprod := st.mprod + 1 }

/-- Transpose multiply of column `j` of `W` into `F` (lines 277-300): the
dense or sparse product, `mprod++`, optional shift, optional scale. -/
def transposeMultiply (ker : Kernels α) (p : Params α) (st : St α) (j : Nat) : St α :=
  let m := p.m.toNat
  let n := p.n.toNat
  let F1 := blit st.F 0 n
    (if p.mult = 1 then dsdmult ker 't' m n (off st.W (j * m))
     else dgemvT m n p.A (off st.W (j * m)))
  let F2 := match p.shift with
    | none => F1
    | some sh => blit F1 0 m (fun kk => F1 kk + sh * st.W (j * m + kk))
  let F3 := match st.scale with
    | none => F2
    | some sc => blit F2 0 n (fun kk => F2 kk / sc kk)
  { st with F := F3, mprod := st.mprod + 1 }

/-- The shift `s` of the operator: `shift[0]`, or 0 without a shift. -/
def shiftVal (p : Params α) : α :=
  match p.shift with
  | none => 0
  | some sh => sh

/-- Entry `l` of the centering vector `c`: 0 without centering. -/
def centerVal (p : Params α) (l : Nat) : α :=
  match p.center with
  | none => 0
  | some ce => ce l

/-- Entry `l` of the scale vector: 1 without scaling. -/
def scaleVal (st : St α) (l : Nat) : α :=
  match st.scale with
  | none => 1
  | some sc => sc l

/-- Entry `(i, l)` of the matrix `A + s I` (dense `A`, column-major, `m` rows). -/
def shiftedEntry (p : Params α) (i l : Nat) : α :=
  p.A (i + p.m.toNat * l) + (if i = l then shiftVal p else 0)

end Operator

/-! ## The driver (lines 186-430) -/

section Driver
variable [LinearOrderedField α]

/-- Single store `b[i] = v`. -/
def setAt (b : Nat → α) (i : Nat) (v : α) : Nat → α :=
  fun idx => if idx = i then v else b idx

/-- Lines 220-272: forward multiply column `j`, orthogonalise it against the
previous columns of `W` when `iter > 0`, and normalise it. -/
def sweepInitMult (ker : Kernels α) (p : Params α) (st : St α) : Flow α :=
  let m := p.m.toNat
  let st := forwardMultiply ker p st st.j
  let st :=
    if st.iter > 0 then
      let r := ker.orthog st.W (off st.W (st.j * m)) st.T m st.j 1
      { st with W := blit st.W (st.j * m) m r.1, T := r.2 }
    else st
  let S := ker.dnrm2 m (off st.W (st.j * m))
  let st := { st with S := S }
  if S < p.tol ∧ st.j = 1 then Flow.ret (-4) st
  else if S < p.eps then Flow.ret (-5) st
  else
    let SS := 1 / S
    Flow.next { st with W := blit st.W (st.j * m) m (dscal SS (off st.W (st.j * m))) }

/-- Lines 207-272: start of a sweep.  Normalise the starting vector on the
first sweep of a fresh call (else resume at column `k`), then the forward
multiply and normalisation of column `j`. -/
def sweepInit (ker : Kernels α) (p : Params α) (st : St α) : Flow α :=
  let n := p.n.toNat
  let st := { st with j := 0 }
  if st.iter = 0 ∧ p.restart = 0 then
    let d := ker.dnrm2 n st.V
    if d < 2 * p.eps then Flow.ret (-1) st
    else
      let d := 1 / d
      sweepInitMult ker p { st with V := blit st.V 0 n (dscal d st.V) }
  else sweepInitMult ker p { st with j := st.k }

/-- Lines 277-304: the transpose multiply of column `j` of `W`, the
subtraction of `S` times column `j` of `V`, the orthogonalisation of `F`
against the first `j + 1` columns of `V`, and the residual norm `R_F`. -/
def lanczosResidual (ker : Kernels α) (p : Params α) (st : St α) : St α :=
  let n := p.n.toNat
  let j := st.j
  let st := transposeMultiply ker p st j
  let SS := -st.S
  let st := { st with F := blit st.F 0 n (daxpy SS (off st.V (j * n)) st.F) }
  let r := ker.orthog st.V st.F st.T n (j + 1) 1
  let st := { st with F := blit st.F 0 n r.1, T := r.2 }
  let R_F := ker.dnrm2 n st.F
  { st with R_F := R_F }

/-- Lines 309-363: the branch `j + 1 < work` after the test of `R_F`: the
new column `j + 1` of `V`, the two entries of `B`, the forward multiply of
the new column, one Gram-Schmidt step against column `j` of `W`, the full
re-orthogonalisation when `iter > 1`, and the normalisation. -/
def lanczosExtend (ker : Kernels α) (p : Params α) (st : St α) : Flow α :=
  let m := p.m.toNat
  let n := p.n.toNat
  let work := p.work.toNat
  let j := st.j
  let R_F := st.R_F
  let R := 1 / R_F
  let V1 := blit st.V ((j + 1) * n) n st.F
  let V2 := blit V1 ((j + 1) * n) n (dscal R (off V1 ((j + 1) * n)))
  let B1 := setAt st.B (j * work + j) st.S
  let B2 := setAt B1 ((j + 1) * work + j) R_F
  let st := forwardMultiply ker p { st with V := V2, B := B2 } (j + 1)
  let R := -R_F
  let Wd := blit st.W ((j + 1) * m) m (daxpy R (off st.W (j * m)) (off st.W ((j + 1) * m)))
  let st := { st with W := Wd }
  let st :=
    if st.iter > 1 then
      let r := ker.orthog st.W (off st.W ((j + 1) * m)) st.T m (j + 1) 1
      { st with W := blit st.W ((j + 1) * m) m r.1, T := r.2 }
    else st
  let S := ker.dnrm2 m (off st.W ((j + 1) * m))
  let st := { st with S := S }
  if S < p.eps then Flow.ret (-5) st
  else
    let SS := 1 / S
    Flow.next { st with
      W := blit st.W ((j + 1) * m) m (dscal SS (off st.W ((j + 1) * m))),
      j := j + 1 }

/-- Lines 277-369: one pass of the body of `while (j < work)`. -/
def lanczosStep (ker : Kernels α) (p : Params α) (st : St α) : Flow α :=
  let work := p.work.toNat
  let j := st.j
  let st := lanczosResidual ker p st
  if j + 1 < work then
    if st.R_F < p.eps then Flow.ret (-5) st
    else lanczosExtend ker p st
  else
    Flow.next { st with B := setAt st.B (j * work + j) st.S, j := j + 1 }

/-- Lines 275-370: `while (j < work)`; `fuel` bounds the number of passes. -/
def lanczosLoop (ker : Kernels α) (p : Params α) : Nat → St α → Flow α
  | 0, st => Flow.next st
  | fuel + 1, st =>
    if st.j < p.work.toNat then
      match lanczosStep ker p st with
      | Flow.next st1 => lanczosLoop ker p fuel st1
      | r => r
    else Flow.next st

/-- Lines 382-384: running maximum of the singular values `BS[0..j-1]`. -/
def smaxLoop (BS : Nat → α) : Nat → α → α
  | 0, s => s
  | jj + 1, s =>
    let s1 := smaxLoop BS jj s
    if BS jj > s1 then BS jj else s1

/-- Lines 400-404: the loop refilling `B` after the `memset`. -/
def restartB (work k : Nat) (BS res : Nat → α) : Nat → (Nat → α) → (Nat → α)
  | 0, B => B
  | jj + 1, B =>
    let B1 := restartB work k BS res jj B
    setAt (setAt B1 (jj * work + jj) (BS jj)) (k * work + jj) (res jj)

/-- Lines 372-385: small SVD of `B`, residual estimates, `Smax`, `convtests`. -/
def smallSvd (ker : Kernels α) (p : Params α) (st : St α) : St α :=
  let n := p.n.toNat
  let work := p.work.toNat
  let j := st.j
  let BU0 := blit st.BU 0 (work * work) st.B
  let sv := ker.dgesdd work BU0 p.lwork st.BW st.T
  let R := 1 / st.R_F
  let F := blit st.F 0 n (dscal R st.F)
  let res : Nat → α := fun kk => if kk < j then st.R_F * sv.U (kk * work + (j - 1)) else st.res kk
  let Smax := smaxLoop sv.S j st.Smax
  let c := ker.convtests j p.nu p.tol Smax res st.k
  { st with BU := sv.U, BS := sv.S, BV := sv.VT, BW := sv.work, T := sv.iwork,
            info := sv.info, F := F, res := res, Smax := Smax, k := c.1,
            converged := c.2 }

/-- Lines 392-412: restart truncation of `V`, `B` and `W`, then `iter++`. -/
def restartTruncate (p : Params α) (st : St α) : St α :=
  let m := p.m.toNat
  let n := p.n.toNat
  let work := p.work.toNat
  let j := st.j
  let k := st.k
  let V1 := blit st.V1 0 (n * k) (dgemmNT n k j st.V n st.BV work)
  let V := blit st.V 0 (n * k) V1
  let V := blit V (n * k) n st.F
  let B := restartB work k st.BS st.res k (memset0 st.B (work * work))
  let U1 := blit st.U1 0 (m * k) (dgemmNN m k j st.W m st.BU work)
  let W := blit st.W 0 (m * k) U1
  { st with V1 := V1, V := V, B := B, U1 := U1, W := W, iter := st.iter + 1 }

/-- Number of the column at which the sweep entered in state `st` starts. -/
def startColumn (p : Params α) (st : St α) : Nat :=
  if st.iter = 0 ∧ p.restart = 0 then 0 else st.k

/-- Lines 207-370: the basis-building phase of a sweep. -/
def buildBasis (ker : Kernels α) (p : Params α) (st : St α) : Flow α :=
  match sweepInit ker p st with
  | Flow.next st1 => lanczosLoop ker p (p.work.toNat - st1.j) st1
  | r => r

/-- Lines 206-413: one pass of the body of the main iteration. -/
def sweep (ker : Kernels α) (p : Params α) (st : St α) : Flow α :=
  match buildBasis ker p st with
  | Flow.next st2 =>
    let st3 := smallSvd ker p st2
    if st3.converged = 1 then Flow.brk { st3 with iter := st3.iter + 1 }
    else Flow.next (restartTruncate p st3)
  | r => r

/-- Lines 205-413: `while (iter < maxit)`; `fuel` bounds the number of passes.
The result is `ret` for a `return` inside the loop and `next` when control
reaches the statement after the loop. -/
def mainLoop (ker : Kernels α) (p : Params α) : Nat → St α → Flow α
  | 0, st => Flow.next st
  | fuel + 1, st =>
    if st.iter < p.maxit then
      match sweep ker p st with
      | Flow.next st1 => mainLoop ker p fuel st1
      | Flow.brk st1 => Flow.next st1
      | r => r
    else Flow.next st

/-- Lines 415-429: the results block. -/
def results (p : Params α) (st : St α) : Out α :=
  let m := p.m.toNat
  let n := p.n.toNat
  let work := p.work.toNat
  let s := blit st.s 0 p.nu st.BS
  let U := blit st.U 0 (m * p.nu) (dgemmNN m p.nu work st.W m st.BU work)
  let V1 := blit st.V1 0 (n * p.nu) (dgemmNT n p.nu work st.V n st.BV work)
  let V := blit st.V 0 (n * p.nu) V1
  { status := if st.converged = 1 then 0 else -2,
    mem := { st with s := s, U := U, V1 := V1, V := V,
                     ITER := some st.iter, MPROD := some st.mprod } }

/-- Lines 187-196: the locals of `irlb` with an initialiser; the others
(`converged` among them) keep their indeterminate value. -/
def initLocals (p : Params α) (st : St α) : St α :=
  { st with k := p.restart, mprod := 0, iter := 0, Smax := 0 }

/-- Lines 202-203: `B` is cleared unless the call resumes a previous one. -/
def clearB (p : Params α) (st : St α) : St α :=
  if p.restart = 0 then { st with B := memset0 st.B (p.work.toNat * p.work.toNat) } else st

/-- The function `irlb` (lines 154-430) run on the memory `st`. -/
def irlb (ker : Kernels α) (p : Params α) (st : St α) : Out α :=
  let st := initLocals p st
  if p.work < 4 ∨ p.n < 4 ∨ p.m < 4 then { status := -1, mem := st }
  else
    match mainLoop ker p p.maxit.toNat (clearB p st) with
    | Flow.ret code st1 => { status := code, mem := st1 }
    | Flow.brk st1 => results p st1
    | Flow.next st1 => results p st1

/-- The state at the start of sweep number `i` (counting from 0) of the main
iteration entered in state `st`, when the sweeps before it all ended at the
bottom of the loop body (no `return`, no `break`). -/
def sweepsFrom (ker : Kernels α) (p : Params α) : Nat → St α → Option (St α)
  | 0, st => some st
  | i + 1, st =>
    match sweep ker p st with
    | Flow.next st1 => sweepsFrom ker p i st1
    | _ => none

/-- The norm `S` of the first column of `W` at the first inner step of the
first sweep of a fresh call (lines 211-266 with `iter = 0`, `restart = 0`):
the operator applied to the normalised starting vector. -/
def firstColumnNorm (ker : Kernels α) (p : Params α) (st : St α) : α :=
  let n := p.n.toNat
  let m := p.m.toNat
  let e := { clearB p (initLocals p st) with j := 0 }
  let d := 1 / ker.dnrm2 n e.V
  let st1 := forwardMultiply ker p { e with V := blit e.V 0 n (dscal d e.V) } 0
  ker.dnrm2 m (off st1.W (0 * m))

end Driver

/-! ## Example kernels and inputs over `ℚ` -/

/-- Example kernels: every norm is 1, `orthog` leaves `Y` as it is, `dgesdd`
returns all-ones factors, `convtests` writes the fixed pair `(k, conv)` and
the sparse product is the all-ones vector. -/
def kerUnit (k : Nat) (conv : Int) : Kernels ℚ where
  dnrm2 := fun _ _ => 1
  orthog := fun _ Y T _ _ _ => (Y, T)
  dgesdd := fun _ _ _ W I =>
    { S := fun _ => 1, U := fun _ => 1, VT := fun _ => 1, work := W, iwork := I, info := 0 }
  convtests := fun _ _ _ _ _ _ => (k, conv)
  cholmod_sdmult := fun _ _ _ _ => fun _ => 1

/-- Example kernels as `kerUnit`, with the 1-norm for `dnrm2`; it is the
Euclidean norm on vectors with at most one non-zero entry. -/
def kerL1 (k : Nat) (conv : Int) : Kernels ℚ where
  dnrm2 := fun n x => sumTo n (fun i => |x i|)
  orthog := fun _ Y T _ _ _ => (Y, T)
  dgesdd := fun _ _ _ W I =>
    { S := fun _ => 1, U := fun _ => 1, VT := fun _ => 1, work := W, iwork := I, info := 0 }
  convtests := fun _ _ _ _ _ _ => (k, conv)
  cholmod_sdmult := fun _ _ _ _ => fun _ => 1

/-- Example arguments: a 5 x 5 operator with all entries `a`, `nu = 2`,
`work = 4`, `eps = 1/1000`, `tol = 1/100`, no scale, shift or center. -/
def exParams (a : ℚ) (mult maxit : Int) : Params ℚ where
  A := fun _ => a
  mult := mult
  m := 5
  n := 5
  nu := 2
  work := 4
  maxit := maxit
  restart := 0
  tol := 1 / 100
  shift := none
  center := none
  eps := 1 / 1000
  lwork := 140

/-- Example memory on entry: every array holds zeros except `V`, whose first
column is `v0` times the first coordinate vector; `ITER` and `MPROD` are
not initialised, as in the wrapper `IRLB`. -/
def exMem (v0 : ℚ) : St ℚ where
  scale := none
  s := fun _ => 0
  U := fun _ => 0
  V := fun i => if i = 0 then v0 else 0
  ITER := none
  MPROD := none
  V1 := fun _ => 0
  U1 := fun _ => 0
  W := fun _ => 0
  F := fun _ => 0
  B := fun _ => 0
  BU := fun _ => 0
  BV := fun _ => 0
  BS := fun _ => 0
  BW := fun _ => 0
  res := fun _ => 0
  T := fun _ => 0
  S := 0
  R_F := 0
  Smax := 0
  k := 0
  converged := 0
  info := 0
  mprod := 0
  iter := 0
  j := 0

/-- Modelled from the spec: `orthog`, whose body is not in `irlb.c`, for a
single vector (`yn = 1`, as in every call of `irlb`): one classical
Gram-Schmidt pass, the dot products of `Y` with the first `xn` columns of `X`
(left in `T`), then the subtraction of the matching combination of those
columns from `Y`. -/
def orthogGS (X Y T : Nat → ℚ) (xm xn _yn : Nat) : (Nat → ℚ) × (Nat → ℚ) :=
  let t : Nat → ℚ := fun c => sumTo xm (fun i => X (c * xm + i) * Y i)
  (fun i => Y i - sumTo xn (fun c => X (c * xm + i) * t c), blit T 0 xn t)

/-- The first `q` coordinate vectors of length 6 as the columns of a
column-major array: entry `7 c` is 1 for `c < q`, every other entry is 0. -/
def eCols (q : Nat) : Nat → ℚ :=
  fun idx => if idx % 7 = 0 ∧ idx < 7 * q then 1 else 0

/-- The 6 x 6 upper bidiagonal matrix with diagonal `3, 2, 1, 12, 12, 1` and
the two non-zero superdiagonal entries `A[3,4] = 7`, `A[4,5] = 5`,
column-major. -/
def rsA : Nat → ℚ :=
  fun idx =>
    if idx = 0 then 3 else if idx = 7 then 2 else if idx = 14 then 1
    else if idx = 21 then 12 else if idx = 28 then 12 else if idx = 35 then 1
    else if idx = 27 then 7 else if idx = 34 then 5 else 0

/-- The 5 x 5 matrix `diag (3, 2, 1)` as the caller of a resumed call hands
it over in `B` (column-major). -/
def rsB0 : Nat → ℚ :=
  fun idx => if idx = 0 then 3 else if idx = 6 then 2 else if idx = 12 then 1 else 0

/-- The 5 x 5 matrix `diag (3, 2, 1)` plus the block `[[12, 7], [0, 12]]` in
rows and columns 3, 4 (column-major). -/
def rsB : Nat → ℚ :=
  fun idx =>
    if idx = 0 then 3 else if idx = 6 then 2 else if idx = 12 then 1
    else if idx = 18 then 12 else if idx = 23 then 7 else if idx = 24 then 12 else 0

/-- Singular values of `rsB`, descending. -/
def rsS : Nat → ℚ :=
  fun idx =>
    if idx = 0 then 16 else if idx = 1 then 9 else if idx = 2 then 3
    else if idx = 3 then 2 else if idx = 4 then 1 else 0

/-- Left singular vectors of `rsB` as the columns of a 5 x 5 column-major
array: `(0,0,0,4/5,3/5)`, `(0,0,0,3/5,-4/5)`, `e0`, `e1`, `e2`. -/
def rsU : Nat → ℚ :=
  fun idx =>
    if idx = 3 then 4 / 5 else if idx = 4 then 3 / 5 else if idx = 8 then 3 / 5
    else if idx = 9 then -(4 / 5) else if idx = 10 then 1 else if idx = 16 then 1
    else if idx = 22 then 1 else 0

/-- Right singular vectors of `rsB` as the rows of a 5 x 5 column-major
array: `(0,0,0,3/5,4/5)`, `(0,0,0,4/5,-3/5)`, `e0`, `e1`, `e2`. -/
def rsVT : Nat → ℚ :=
  fun idx =>
    if idx = 15 then 3 / 5 else if idx = 20 then 4 / 5 else if idx = 16 then 4 / 5
    else if idx = 21 then -(3 / 5) else if idx = 2 then 1 else if idx = 8 then 1
    else if idx = 14 then 1 else 0

/-- The singular value decomposition `rsB = rsU diag (rsS) rsVT`, returned
when the matrix handed over is `rsB` of order 5; `info = -1` otherwise. -/
def rsSvd (work : Nat) (A : Nat → ℚ) (_lwork : Int) (W I : Nat → ℚ) : SvdOut ℚ :=
  if work = 5 ∧ (List.range 25).all (fun idx => decide (A idx = rsB idx)) = true then
    { S := rsS, U := rsU, VT := rsVT, work := W, iwork := I, info := 0 }
  else
    { S := fun _ => 0, U := fun _ => 0, VT := fun _ => 0, work := W, iwork := I, info := -1 }

/-- Exact kernels for the resumed example: `dnrm2` is the 1-norm, which is
the Euclidean norm on a vector with at most one non-zero entry (every vector
whose norm the example run takes is one); `orthog` is the Gram-Schmidt pass;
`dgesdd` is the decomposition of `rsB`; `convtests` writes the pair
`(k, conv)`; the sparse product is not used. -/
def kerExact (k : Nat) (conv : Int) : Kernels ℚ where
  dnrm2 := fun n x => sumTo n (fun i => |x i|)
  orthog := orthogGS
  dgesdd := rsSvd
  convtests := fun _ _ _ _ _ _ => (k, conv)
  cholmod_sdmult := fun _ _ _ _ => fun _ => 0

/-- Arguments of the resumed example: the dense 6 x 6 matrix `rsA`,
`nu = 4`, `work = 5`, `restart = 3`, `tol = 1/1000`, `eps = 1/1000000`,
no scale, shift or center. -/
def rsParams (maxit : Int) : Params ℚ where
  A := rsA
  mult := 0
  m := 6
  n := 6
  nu := 4
  work := 5
  maxit := maxit
  restart := 3
  tol := 1 / 1000
  shift := none
  center := none
  eps := 1 / 1000000
  lwork := 210

/-- Memory of the resumed example on entry, as the wrapper `IRLB` prepares it
for `RESTART = 3`: `V` holds the coordinate vectors `e0 .. e3` (three
retained right vectors and the next direction), `W` holds `e0, e1, e2`, `B`
is `diag (3, 2, 1)`; `ITER`, `MPROD` are not initialised; the local
`converged` holds `c`. -/
def rsMem (c : Int) : St ℚ where
  scale := none
  s := fun _ => 0
  U := fun _ => 0
  V := eCols 4
  ITER := none
  MPROD := none
  V1 := fun _ => 0
  U1 := fun _ => 0
  W := eCols 3
  F := fun _ => 0
  B := rsB0
  BU := fun _ => 0
  BV := fun _ => 0
  BS := fun _ => 0
  BW := fun _ => 0
  res := fun _ => 0
  T := fun _ => 0
  S := 0
  R_F := 0
  Smax := 0
  k := 0
  converged := c
  info := 0
  mprod := 0
  iter := 0
  j := 0

/-! ## Frame facts of the sweep phases -/

section Frame
variable [LinearOrderedField α]

@[simp]
theorem forwardMultiply_iter (ker : Kernels α) (p : Params α) (st : St α) (c : Nat) :
    (forwardMultiply ker p st c).iter = st.iter := rfl

@[simp]
theorem forwardMultiply_j (ker : Kernels α) (p : Params α) (st : St α) (c : Nat) :
    (forwardMultiply ker p st c).j = st.j := rfl

@[simp]
theorem forwardMultiply_k (ker : Kernels α) (p : Params α) (st : St α) (c : Nat) :
    (forwardMultiply ker p st c).k = st.k := rfl

@[simp]
theorem forwardMultiply_ITER (ker : Kernels α) (p : Params α) (st : St α) (c : Nat) :
    (forwardMultiply ker p st c).ITER = st.ITER := rfl

@[simp]
theorem forwardMultiply_MPROD (ker : Kernels α) (p : Params α) (st : St α) (c : Nat) :
    (forwardMultiply ker p st c).MPROD = st.MPROD := rfl

@[simp]
theorem forwardMultiply_converged (ker : Kernels α) (p : Params α) (st : St α) (c : Nat) :
    (forwardMultiply ker p st c).converged = st.converged := rfl

@[simp]
theorem forwardMultiply_V (ker : Kernels α) (p : Params α) (st : St α) (c : Nat) :
    (forwardMultiply ker p st c).V = st.V := rfl

@[simp]
theorem forwardMultiply_B (ker : Kernels α) (p : Params α) (st : St α) (c : Nat) :
    (forwardMultiply ker p st c).B = st.B := rfl

@[simp]
theorem forwardMultiply_F (ker : Kernels α) (p : Params α) (st : St α) (c : Nat) :
    (forwardMultiply ker p st c).F = st.F := rfl

@[simp]
theorem forwardMultiply_S (ker : Kernels α) (p : Params α) (st : St α) (c : Nat) :
    (forwardMultiply ker p st c).S = st.S := rfl

@[simp]
theorem forwardMultiply_R_F (ker : Kernels α) (p : Params α) (st : St α) (c : Nat) :
    (forwardMultiply ker p st c).R_F = st.R_F := rfl

@[simp]
theorem forwardMultiply_T (ker : Kernels α) (p : Params α) (st : St α) (c : Nat) :
    (forwardMultiply ker p st c).T = st.T := rfl

@[simp]
theorem forwardMultiply_Smax (ker : Kernels α) (p : Params α) (st : St α) (c : Nat) :
    (forwardMultiply ker p st c).Smax = st.Smax := rfl

@[simp]
theorem forwardMultiply_s (ker : Kernels α) (p : Params α) (st : St α) (c : Nat) :
    (forwardMultiply ker p st c).s = st.s := rfl

@[simp]
theorem forwardMultiply_U (ker : Kernels α) (p : Params α) (st : St α) (c : Nat) :
    (forwardMultiply ker p st c).U = st.U := rfl

@[simp]
theorem forwardMultiply_V1 (ker : Kernels α) (p : Params α) (st : St α) (c : Nat) :
    (forwardMultiply ker p st c).V1 = st.V1 := rfl

@[simp]
theorem forwardMultiply_U1 (ker : Kernels α) (p : Params α) (st : St α) (c : Nat) :
    (forwardMultiply ker p st c).U1 = st.U1 := rfl

@[simp]
theorem forwardMultiply_BU (ker : Kernels α) (p : Params α) (st : St α) (c : Nat) :
    (forwardMultiply ker p st c).BU = st.BU := rfl

@[simp]
theorem forwardMultiply_BV (ker : Kernels α) (p : Params α) (st : St α) (c : Nat) :
    (forwardMultiply ker p st c).BV = st.BV := rfl

@[simp]
theorem forwardMultiply_BS (ker : Kernels α) (p : Params α) (st : St α) (c : Nat) :
    (forwardMultiply ker p st c).BS = st.BS := rfl

@[simp]
theorem forwardMultiply_BW (ker : Kernels α) (p : Params α) (st : St α) (c : Nat) :
    (forwardMultiply ker p st c).BW = st.BW := rfl

@[simp]
theorem forwardMultiply_res (ker : Kernels α) (p : Params α) (st : St α) (c : Nat) :
    (forwardMultiply ker p st c).res = st.res := rfl

@[simp]
theorem forwardMultiply_info (ker : Kernels α) (p : Params α) (st : St α) (c : Nat) :
    (forwardMultiply ker p st c).info = st.info := rfl

@[simp]
theorem forwardMultiply_mprod (ker : Kernels α) (p : Params α) (st : St α) (c : Nat) :
    (forwardMultiply ker p st c).mprod = st.mprod + 1 := rfl

@[simp]
theorem transposeMultiply_iter (ker : Kernels α) (p : Params α) (st : St α) (c : Nat) :
    (transposeMultiply ker p st c).iter = st.iter := rfl

@[simp]
theorem transposeMultiply_j (ker : Kernels α) (p : Params α) (st : St α) (c : Nat) :
    (transposeMultiply ker p st c).j = st.j := rfl

@[simp]
theorem transposeMultiply_k (ker : Kernels α) (p : Params α) (st : St α) (c : Nat) :
    (transposeMultiply ker p st c).k = st.k := rfl

@[simp]
theorem transposeMultiply_ITER (ker : Kernels α) (p : Params α) (st : St α) (c : Nat) :
    (transposeMultiply ker p st c).ITER = st.ITER := rfl

@[simp]
theorem transposeMultiply_MPROD (ker : Kernels α) (p : Params α) (st : St α) (c : Nat) :
    (transposeMultiply ker p st c).MPROD = st.MPROD := rfl

@[simp]
theorem transposeMultiply_converged (ker : Kernels α) (p : Params α) (st : St α) (c : Nat) :
    (transposeMultiply ker p st c).converged = st.converged := rfl

@[simp]
theorem transposeMultiply_V (ker : Kernels α) (p : Params α) (st : St α) (c : Nat) :
    (transposeMultiply ker p st c).V = st.V := rfl

@[simp]
theorem transposeMultiply_B (ker : Kernels α) (p : Params α) (st : St α) (c : Nat) :
    (transposeMultiply ker p st c).B = st.B := rfl

@[simp]
theorem transposeMultiply_W (ker : Kernels α) (p : Params α) (st : St α) (c : Nat) :
    (transposeMultiply ker p st c).W = st.W := rfl

@[simp]
theorem transposeMultiply_S (ker : Kernels α) (p : Params α) (st : St α) (c : Nat) :
    (transposeMultiply ker p st c).S = st.S := rfl

@[simp]
theorem transposeMultiply_R_F (ker : Kernels α) (p : Params α) (st : St α) (c : Nat) :
    (transposeMultiply ker p st c).R_F = st.R_F := rfl

@[simp]
theorem transposeMultiply_T (ker : Kernels α) (p : Params α) (st : St α) (c : Nat) :
    (transposeMultiply ker p st c).T = st.T := rfl

@[simp]
theorem transposeMultiply_Smax (ker : Kernels α) (p : Params α) (st : St α) (c : Nat) :
    (transposeMultiply ker p st c).Smax = st.Smax := rfl

@[simp]
theorem transposeMultiply_s (ker : Kernels α) (p : Params α) (st : St α) (c : Nat) :
    (transposeMultiply ker p st c).s = st.s := rfl

@[simp]
theorem transposeMultiply_U (ker : Kernels α) (p : Params α) (st : St α) (c : Nat) :
    (transposeMultiply ker p st c).U = st.U := rfl

@[simp]
theorem transposeMultiply_V1 (ker : Kernels α) (p : Params α) (st : St α) (c : Nat) :
    (transposeMultiply ker p st c).V1 = st.V1 := rfl

@[simp]
theorem transposeMultiply_U1 (ker : Kernels α) (p : Params α) (st : St α) (c : Nat) :
    (transposeMultiply ker p st c).U1 = st.U1 := rfl

@[simp]
theorem transposeMultiply_BU (ker : Kernels α) (p : Params α) (st : St α) (c : Nat) :
    (transposeMultiply ker p st c).BU = st.BU := rfl

@[simp]
theorem transposeMultiply_BV (ker : Kernels α) (p : Params α) (st : St α) (c : Nat) :
    (transposeMultiply ker p st c).BV = st.BV := rfl

@[simp]
theorem transposeMultiply_BS (ker : Kernels α) (p : Params α) (st : St α) (c : Nat) :
    (transposeMultiply ker p st c).BS = st.BS := rfl

@[simp]
theorem transposeMultiply_BW (ker : Kernels α) (p : Params α) (st : St α) (c : Nat) :
    (transposeMultiply ker p st c).BW = st.BW := rfl

@[simp]
theorem transposeMultiply_res (ker : Kernels α) (p : Params α) (st : St α) (c : Nat) :
    (transposeMultiply ker p st c).res = st.res := rfl

@[simp]
theorem transposeMultiply_info (ker : Kernels α) (p : Params α) (st : St α) (c : Nat) :
    (transposeMultiply ker p st c).info = st.info := rfl

@[simp]
theorem transposeMultiply_scale (ker : Kernels α) (p : Params α) (st : St α) (c : Nat) :
    (transposeMultiply ker p st c).scale = st.scale := rfl

@[simp]
theorem transposeMultiply_mprod (ker : Kernels α) (p : Params α) (st : St α) (c : Nat) :
    (transposeMultiply ker p st c).mprod = st.mprod + 1 := rfl

theorem sweepInitMult_next (ker : Kernels α) (p : Params α) (st st1 : St α)
    (h : sweepInitMult ker p st = Flow.next st1) :
    st1.iter = st.iter ∧ st1.mprod = st.mprod + 1 ∧ st1.j = st.j ∧ st1.k = st.k ∧
      st1.ITER = st.ITER ∧ st1.MPROD = st.MPROD ∧ st1.converged = st.converged := by
  unfold sweepInitMult at h
  dsimp only at h
  split_ifs at h <;> cases h <;> simp

theorem sweepInitMult_ret (ker : Kernels α) (p : Params α) (st st1 : St α) (c : Int)
    (h : sweepInitMult ker p st = Flow.ret c st1) :
    (c = -4 ∨ c = -5) ∧ st1.ITER = st.ITER ∧ st1.MPROD = st.MPROD := by
  unfold sweepInitMult at h
  dsimp only at h
  split_ifs at h <;> cases h <;> simp

theorem sweepInitMult_not_brk (ker : Kernels α) (p : Params α) (st st1 : St α) :
    sweepInitMult ker p st ≠ Flow.brk st1 := by
  intro h
  unfold sweepInitMult at h
  dsimp only at h
  split_ifs at h

theorem sweepInit_next (ker : Kernels α) (p : Params α) (st st1 : St α)
    (h : sweepInit ker p st = Flow.next st1) :
    st1.iter = st.iter ∧ st1.mprod = st.mprod + 1 ∧
      st1.j = (if st.iter = 0 ∧ p.restart = 0 then 0 else st.k) ∧ st1.k = st.k ∧
      st1.ITER = st.ITER ∧ st1.MPROD = st.MPROD ∧ st1.converged = st.converged := by
  unfold sweepInit at h
  dsimp only at h
  by_cases hc : st.iter = 0 ∧ p.restart = 0
  · rw [if_pos hc] at h
    split_ifs at h
    have := sweepInitMult_next ker p _ st1 h
    simpa [hc] using this
  · rw [if_neg hc] at h
    have := sweepInitMult_next ker p _ st1 h
    simpa [hc] using this

theorem sweepInit_ret (ker : Kernels α) (p : Params α) (st st1 : St α) (c : Int)
    (h : sweepInit ker p st = Flow.ret c st1) :
    (c = -1 ∨ c = -4 ∨ c = -5) ∧ st1.ITER = st.ITER ∧ st1.MPROD = st.MPROD := by
  unfold sweepInit at h
  dsimp only at h
  split_ifs at h
  · cases h; simp
  · obtain ⟨h1, h2⟩ := sweepInitMult_ret ker p _ st1 c h
    exact ⟨Or.inr h1, h2⟩
  · obtain ⟨h1, h2⟩ := sweepInitMult_ret ker p _ st1 c h
    exact ⟨Or.inr h1, h2⟩

theorem sweepInit_not_brk (ker : Kernels α) (p : Params α) (st st1 : St α) :
    sweepInit ker p st ≠ Flow.brk st1 := by
  intro h
  unfold sweepInit at h
  dsimp only at h
  split_ifs at h
  · exact sweepInitMult_not_brk ker p _ st1 h
  · exact sweepInitMult_not_brk ker p _ st1 h

@[simp]
theorem lanczosResidual_iter (ker : Kernels α) (p : Params α) (st : St α) :
    (lanczosResidual ker p st).iter = st.iter := rfl

@[simp]
theorem lanczosResidual_j (ker : Kernels α) (p : Params α) (st : St α) :
    (lanczosResidual ker p st).j = st.j := rfl

@[simp]
theorem lanczosResidual_k (ker : Kernels α) (p : Params α) (st : St α) :
    (lanczosResidual ker p st).k = st.k := rfl

@[simp]
theorem lanczosResidual_ITER (ker : Kernels α) (p : Params α) (st : St α) :
    (lanczosResidual ker p st).ITER = st.ITER := rfl

@[simp]
theorem lanczosResidual_MPROD (ker : Kernels α) (p : Params α) (st : St α) :
    (lanczosResidual ker p st).MPROD = st.MPROD := rfl

@[simp]
theorem lanczosResidual_converged (ker : Kernels α) (p : Params α) (st : St α) :
    (lanczosResidual ker p st).converged = st.converged := rfl

@[simp]
theorem lanczosResidual_W (ker : Kernels α) (p : Params α) (st : St α) :
    (lanczosResidual ker p st).W = st.W := rfl

@[simp]
theorem lanczosResidual_S (ker : Kernels α) (p : Params α) (st : St α) :
    (lanczosResidual ker p st).S = st.S := rfl

@[simp]
theorem lanczosResidual_V (ker : Kernels α) (p : Params α) (st : St α) :
    (lanczosResidual ker p st).V = st.V := rfl

@[simp]
theorem lanczosResidual_B (ker : Kernels α) (p : Params α) (st : St α) :
    (lanczosResidual ker p st).B = st.B := rfl

@[simp]
theorem lanczosResidual_Smax (ker : Kernels α) (p : Params α) (st : St α) :
    (lanczosResidual ker p st).Smax = st.Smax := rfl

@[simp]
theorem lanczosResidual_s (ker : Kernels α) (p : Params α) (st : St α) :
    (lanczosResidual ker p st).s = st.s := rfl

@[simp]
theorem lanczosResidual_U (ker : Kernels α) (p : Params α) (st : St α) :
    (lanczosResidual ker p st).U = st.U := rfl

@[simp]
theorem lanczosResidual_V1 (ker : Kernels α) (p : Params α) (st : St α) :
    (lanczosResidual ker p st).V1 = st.V1 := rfl

@[simp]
theorem lanczosResidual_U1 (ker : Kernels α) (p : Params α) (st : St α) :
    (lanczosResidual ker p st).U1 = st.U1 := rfl

@[simp]
theorem lanczosResidual_BU (ker : Kernels α) (p : Params α) (st : St α) :
    (lanczosResidual ker p st).BU = st.BU := rfl

@[simp]
theorem lanczosResidual_BV (ker : Kernels α) (p : Params α) (st : St α) :
    (lanczosResidual ker p st).BV = st.BV := rfl

@[simp]
theorem lanczosResidual_BS (ker : Kernels α) (p : Params α) (st : St α) :
    (lanczosResidual ker p st).BS = st.BS := rfl

@[simp]
theorem lanczosResidual_BW (ker : Kernels α) (p : Params α) (st : St α) :
    (lanczosResidual ker p st).BW = st.BW := rfl

@[simp]
theorem lanczosResidual_res (ker : Kernels α) (p : Params α) (st : St α) :
    (lanczosResidual ker p st).res = st.res := rfl

@[simp]
theorem lanczosResidual_info (ker : Kernels α) (p : Params α) (st : St α) :
    (lanczosResidual ker p st).info = st.info := rfl

@[simp]
theorem lanczosResidual_scale (ker : Kernels α) (p : Params α) (st : St α) :
    (lanczosResidual ker p st).scale = st.scale := rfl

@[simp]
theorem lanczosResidual_mprod (ker : Kernels α) (p : Params α) (st : St α) :
    (lanczosResidual ker p st).mprod = st.mprod + 1 := rfl

theorem lanczosResidual_RF (ker : Kernels α) (p : Params α) (st : St α) :
    ∃ x, (lanczosResidual ker p st).R_F = ker.dnrm2 p.n.toNat x :=
  ⟨_, rfl⟩

theorem lanczosExtend_next (ker : Kernels α) (p : Params α) (st st1 : St α)
    (h : lanczosExtend ker p st = Flow.next st1) :
    st1.iter = st.iter ∧ st1.mprod = st.mprod + 1 ∧ st1.j = st.j + 1 ∧ st1.k = st.k ∧
      st1.ITER = st.ITER ∧ st1.MPROD = st.MPROD ∧ st1.converged = st.converged ∧
      st1.R_F = st.R_F := by
  unfold lanczosExtend at h
  dsimp only at h
  split_ifs at h <;> cases h <;> simp

theorem lanczosExtend_ret (ker : Kernels α) (p : Params α) (st st1 : St α) (c : Int)
    (h : lanczosExtend ker p st = Flow.ret c st1) :
    c = -5 ∧ st1.ITER = st.ITER ∧ st1.MPROD = st.MPROD := by
  unfold lanczosExtend at h
  dsimp only at h
  split_ifs at h <;> cases h <;> simp

theorem lanczosExtend_not_brk (ker : Kernels α) (p : Params α) (st st1 : St α) :
    lanczosExtend ker p st ≠ Flow.brk st1 := by
  intro h
  unfold lanczosExtend at h
  dsimp only at h
  split_ifs at h

theorem lanczosStep_next (ker : Kernels α) (p : Params α) (st st1 : St α)
    (h : lanczosStep ker p st = Flow.next st1) :
    st1.iter = st.iter ∧
      st1.mprod = st.mprod + (if st.j + 1 < p.work.toNat then 2 else 1) ∧
      st1.j = st.j + 1 ∧ st1.k = st.k ∧
      st1.ITER = st.ITER ∧ st1.MPROD = st.MPROD ∧ st1.converged = st.converged := by
  unfold lanczosStep at h
  dsimp only at h
  by_cases hj : st.j + 1 < p.work.toNat
  · rw [if_pos hj] at h
    split_ifs at h
    obtain ⟨a1, a2, a3, a4, a5, a6, a7, _⟩ := lanczosExtend_next ker p _ st1 h
    simp only [lanczosResidual_iter, lanczosResidual_mprod, lanczosResidual_j,
      lanczosResidual_k, lanczosResidual_ITER, lanczosResidual_MPROD,
      lanczosResidual_converged] at a1 a2 a3 a4 a5 a6 a7
    refine ⟨a1, ?_, a3, a4, a5, a6, a7⟩
    rw [a2, if_pos hj]
    ring
  · rw [if_neg hj] at h
    cases h
    simp [hj]

theorem lanczosStep_ret (ker : Kernels α) (p : Params α) (st st1 : St α) (c : Int)
    (h : lanczosStep ker p st = Flow.ret c st1) :
    c = -5 ∧ st1.ITER = st.ITER ∧ st1.MPROD = st.MPROD := by
  unfold lanczosStep at h
  dsimp only at h
  split_ifs at h
  · cases h
    simp
  · obtain ⟨a1, a2, a3⟩ := lanczosExtend_ret ker p _ st1 c h
    exact ⟨a1, by simpa using a2, by simpa using a3⟩

theorem lanczosStep_not_brk (ker : Kernels α) (p : Params α) (st st1 : St α) :
    lanczosStep ker p st ≠ Flow.brk st1 := by
  intro h
  unfold lanczosStep at h
  dsimp only at h
  split_ifs at h
  exact lanczosExtend_not_brk ker p _ st1 h

theorem lanczosLoop_next (ker : Kernels α) (p : Params α) :
    ∀ (fuel : Nat) (st st1 : St α), st.j + fuel = p.work.toNat →
      lanczosLoop ker p fuel st = Flow.next st1 →
      st1.iter = st.iter ∧
      st1.mprod = st.mprod + (if fuel = 0 then 0 else 2 * (fuel : Int) - 1) ∧
      st1.j = p.work.toNat ∧ st1.k = st.k ∧
      st1.ITER = st.ITER ∧ st1.MPROD = st.MPROD ∧ st1.converged = st.converged := by
  intro fuel
  induction fuel with
  | zero =>
    intro st st1 hj h
    simp only [lanczosLoop] at h
    cases h
    simpa using hj
  | succ f ih =>
    intro st st1 hj h
    have hlt : st.j < p.work.toNat := by omega
    simp only [lanczosLoop, if_pos hlt] at h
    cases hs : lanczosStep ker p st with
    | ret c s2 => rw [hs] at h; cases h
    | brk s2 => rw [hs] at h; cases h
    | next s2 =>
      rw [hs] at h
      obtain ⟨a1, a2, a3, a4, a5, a6, a7⟩ := lanczosStep_next ker p st s2 hs
      obtain ⟨b1, b2, b3, b4, b5, b6, b7⟩ := ih s2 st1 (by omega) h
      refine ⟨by rw [b1, a1], ?_, b3, by rw [b4, a4], by rw [b5, a5], by rw [b6, a6],
        by rw [b7, a7]⟩
      rw [b2, a2]
      by_cases hf : f = 0
      · have : ¬ (st.j + 1 < p.work.toNat) := by omega
        simp [hf, this]
      · have : st.j + 1 < p.work.toNat := by omega
        simp [hf, this]
        ring

theorem lanczosLoop_ret (ker : Kernels α) (p : Params α) :
    ∀ (fuel : Nat) (st st1 : St α) (c : Int),
      lanczosLoop ker p fuel st = Flow.ret c st1 →
      c = -5 ∧ st1.ITER = st.ITER ∧ st1.MPROD = st.MPROD := by
  intro fuel
  induction fuel with
  | zero => intro st st1 c h; simp [lanczosLoop] at h
  | succ f ih =>
    intro st st1 c h
    simp only [lanczosLoop] at h
    split_ifs at h
    cases hs : lanczosStep ker p st with
    | ret c2 s2 =>
      rw [hs] at h
      cases h
      exact lanczosStep_ret ker p st st1 c hs
    | brk s2 => rw [hs] at h; cases h
    | next s2 =>
      rw [hs] at h
      obtain ⟨a1, a2, a3, a4, a5, a6, a7⟩ := lanczosStep_next ker p st s2 hs
      obtain ⟨b1, b2, b3⟩ := ih s2 st1 c h
      exact ⟨b1, by rw [b2, a5], by rw [b3, a6]⟩

theorem lanczosLoop_not_brk (ker : Kernels α) (p : Params α) :
    ∀ (fuel : Nat) (st st1 : St α), lanczosLoop ker p fuel st ≠ Flow.brk st1 := by
  intro fuel
  induction fuel with
  | zero => intro st st1 h; simp [lanczosLoop] at h
  | succ f ih =>
    intro st st1 h
    simp only [lanczosLoop] at h
    split_ifs at h
    cases hs : lanczosStep ker p st with
    | ret c2 s2 => rw [hs] at h; cases h
    | brk s2 => exact lanczosStep_not_brk ker p st s2 hs
    | next s2 => rw [hs] at h; exact ih s2 st1 h

theorem buildBasis_next (ker : Kernels α) (p : Params α) (st st2 : St α)
    (h : buildBasis ker p st = Flow.next st2) :
    st2.iter = st.iter ∧
      st2.mprod = st.mprod + 1 +
        (if p.work.toNat - startColumn p st = 0 then 0
         else 2 * ((p.work.toNat - startColumn p st : Nat) : Int) - 1) ∧
      st2.ITER = st.ITER ∧ st2.MPROD = st.MPROD ∧ st2.converged = st.converged ∧
      st2.k = st.k := by
  unfold buildBasis at h
  cases hs : sweepInit ker p st with
  | ret c s1 => rw [hs] at h; cases h
  | brk s1 => rw [hs] at h; cases h
  | next s1 =>
    rw [hs] at h
    dsimp only at h
    obtain ⟨a1, a2, a3, a4, a5, a6, a7⟩ := sweepInit_next ker p st s1 hs
    have hj : s1.j = startColumn p st := a3
    by_cases hle : s1.j ≤ p.work.toNat
    · obtain ⟨b1, b2, b3, b4, b5, b6, b7⟩ :=
        lanczosLoop_next ker p _ s1 st2 (by omega) h
      refine ⟨by rw [b1, a1], ?_, by rw [b5, a5], by rw [b6, a6], by rw [b7, a7],
        by rw [b4, a4]⟩
      rw [b2, a2, hj]
    · have h0 : p.work.toNat - s1.j = 0 := by omega
      rw [h0] at h
      simp only [lanczosLoop] at h
      cases h
      refine ⟨a1, ?_, a5, a6, a7, a4⟩
      rw [a2, ← hj, h0]
      simp

theorem buildBasis_ret (ker : Kernels α) (p : Params α) (st st1 : St α) (c : Int)
    (h : buildBasis ker p st = Flow.ret c st1) :
    (c = -1 ∨ c = -4 ∨ c = -5) ∧ st1.ITER = st.ITER ∧ st1.MPROD = st.MPROD := by
  unfold buildBasis at h
  cases hs : sweepInit ker p st with
  | ret c2 s1 =>
    rw [hs] at h
    cases h
    exact sweepInit_ret ker p st st1 c hs
  | brk s1 => rw [hs] at h; cases h
  | next s1 =>
    rw [hs] at h
    dsimp only at h
    obtain ⟨a1, a2, a3, a4, a5, a6, a7⟩ := sweepInit_next ker p st s1 hs
    obtain ⟨b1, b2, b3⟩ := lanczosLoop_ret ker p _ s1 st1 c h
    exact ⟨Or.inr (Or.inr b1), by rw [b2, a5], by rw [b3, a6]⟩

theorem buildBasis_not_brk (ker : Kernels α) (p : Params α) (st st1 : St α) :
    buildBasis ker p st ≠ Flow.brk st1 := by
  intro h
  unfold buildBasis at h
  cases hs : sweepInit ker p st with
  | ret c2 s1 => rw [hs] at h; cases h
  | brk s1 => exact sweepInit_not_brk ker p st s1 hs
  | next s1 =>
    rw [hs] at h
    exact lanczosLoop_not_brk ker p _ s1 st1 h

/-- Line 385: `converged` is what `convtests` writes, called on `j`, `nu`,
`tol`, the updated `Smax`, the residual estimates and the entry value of `k`. -/
theorem smallSvd_report (ker : Kernels α) (p : Params α) (st : St α) :
    (smallSvd ker p st).converged =
      (ker.convtests st.j p.nu p.tol (smallSvd ker p st).Smax (smallSvd ker p st).res st.k).2 :=
  rfl

theorem sweep_next (ker : Kernels α) (p : Params α) (st st1 : St α)
    (h : sweep ker p st = Flow.next st1) :
    ∃ st2, buildBasis ker p st = Flow.next st2 ∧
      (smallSvd ker p st2).converged ≠ 1 ∧
      st1 = restartTruncate p (smallSvd ker p st2) := by
  unfold sweep at h
  cases hs : buildBasis ker p st with
  | ret c s1 => rw [hs] at h; cases h
  | brk s1 => rw [hs] at h; cases h
  | next s2 =>
    rw [hs] at h
    dsimp only at h
    split_ifs at h with hc
    cases h
    exact ⟨s2, rfl, hc, rfl⟩

theorem sweep_brk (ker : Kernels α) (p : Params α) (st st1 : St α)
    (h : sweep ker p st = Flow.brk st1) :
    ∃ st2, buildBasis ker p st = Flow.next st2 ∧
      (smallSvd ker p st2).converged = 1 ∧
      st1 = { smallSvd ker p st2 with iter := (smallSvd ker p st2).iter + 1 } := by
  unfold sweep at h
  cases hs : buildBasis ker p st with
  | ret c s1 => rw [hs] at h; cases h
  | brk s1 => exact absurd hs (buildBasis_not_brk ker p st s1)
  | next s2 =>
    rw [hs] at h
    dsimp only at h
    split_ifs at h with hc
    cases h
    exact ⟨s2, rfl, hc, rfl⟩

theorem sweep_ret (ker : Kernels α) (p : Params α) (st st1 : St α) (c : Int)
    (h : sweep ker p st = Flow.ret c st1) : buildBasis ker p st = Flow.ret c st1 := by
  unfold sweep at h
  cases hs : buildBasis ker p st with
  | ret c s1 => rw [hs] at h; exact h
  | brk s1 => exact absurd hs (buildBasis_not_brk ker p st s1)
  | next s2 =>
    rw [hs] at h
    dsimp only at h
    split_ifs at h

theorem sweep_next_frame (ker : Kernels α) (p : Params α) (st st1 : St α)
    (h : sweep ker p st = Flow.next st1) :
    st1.iter = st.iter + 1 ∧ st1.ITER = st.ITER ∧ st1.MPROD = st.MPROD := by
  obtain ⟨st2, hb, _, rfl⟩ := sweep_next ker p st st1 h
  obtain ⟨a1, _, a3, a4, _, _⟩ := buildBasis_next ker p st st2 hb
  refine ⟨?_, ?_, ?_⟩
  · show st2.iter + 1 = st.iter + 1
    rw [a1]
  · show st2.ITER = st.ITER
    exact a3
  · show st2.MPROD = st.MPROD
    exact a4

theorem sweepsFrom_frame (ker : Kernels α) (p : Params α) :
    ∀ (t : Nat) (st st1 : St α), sweepsFrom ker p t st = some st1 →
      st1.iter = st.iter + t ∧ st1.ITER = st.ITER ∧ st1.MPROD = st.MPROD := by
  intro t
  induction t with
  | zero =>
    intro st st1 h
    simp only [sweepsFrom, Option.some.injEq] at h
    subst h
    simp
  | succ t ih =>
    intro st st1 h
    simp only [sweepsFrom] at h
    cases hs : sweep ker p st with
    | ret c s1 => rw [hs] at h; cases h
    | brk s1 => rw [hs] at h; cases h
    | next s1 =>
      rw [hs] at h
      obtain ⟨a1, a2, a3⟩ := sweep_next_frame ker p st s1 hs
      obtain ⟨b1, b2, b3⟩ := ih s1 st1 h
      refine ⟨?_, by rw [b2, a2], by rw [b3, a3]⟩
      rw [b1, a1]
      push_cast
      ring

/-- The ways the main iteration entered in state `st` with `fuel` passes left
can end: `r` is its result. -/
theorem mainLoop_cases (ker : Kernels α) (p : Params α) :
    ∀ (fuel : Nat) (st : St α), fuel = (p.maxit - st.iter).toNat →
      (fuel = 0 ∧ mainLoop ker p fuel st = Flow.next st) ∨
      ∃ (t : Nat) (stt : St α), t < fuel ∧ sweepsFrom ker p t st = some stt ∧
        ((∃ c s1, buildBasis ker p stt = Flow.ret c s1 ∧
            mainLoop ker p fuel st = Flow.ret c s1) ∨
         (∃ st2, buildBasis ker p stt = Flow.next st2 ∧
            (smallSvd ker p st2).converged = 1 ∧
            mainLoop ker p fuel st =
              Flow.next { smallSvd ker p st2 with iter := (smallSvd ker p st2).iter + 1 }) ∨
         (∃ st2, buildBasis ker p stt = Flow.next st2 ∧
            (smallSvd ker p st2).converged ≠ 1 ∧ t + 1 = fuel ∧
            mainLoop ker p fuel st = Flow.next (restartTruncate p (smallSvd ker p st2)))) := by
  intro fuel
  induction fuel with
  | zero => intro st _; exact Or.inl ⟨rfl, rfl⟩
  | succ f ih =>
    intro st hf
    right
    have hlt : st.iter < p.maxit := by omega
    cases hs : sweep ker p st with
    | ret c s1 =>
      refine ⟨0, st, by omega, rfl, Or.inl ⟨c, s1, sweep_ret ker p st s1 c hs, ?_⟩⟩
      simp only [mainLoop, if_pos hlt, hs]
    | brk s1 =>
      obtain ⟨st2, hb, hc, rfl⟩ := sweep_brk ker p st s1 hs
      refine ⟨0, st, by omega, rfl, Or.inr (Or.inl ⟨st2, hb, hc, ?_⟩)⟩
      simp only [mainLoop, if_pos hlt, hs]
    | next s1 =>
      have hml : mainLoop ker p (f + 1) st = mainLoop ker p f s1 := by
        simp only [mainLoop, if_pos hlt, hs]
      obtain ⟨a1, _, _⟩ := sweep_next_frame ker p st s1 hs
      rcases ih s1 (by rw [a1]; omega) with ⟨h0, hm⟩ | ⟨t, stt, ht, hsf, hrest⟩
      · obtain ⟨st2, hb, hc, rfl⟩ := sweep_next ker p st s1 hs
        refine ⟨0, st, by omega, rfl, Or.inr (Or.inr ⟨st2, hb, hc, by omega, ?_⟩)⟩
        rw [hml, hm]
      · refine ⟨t + 1, stt, by omega, ?_, ?_⟩
        · simp only [sweepsFrom, hs]
          exact hsf
        · rw [hml]
          rcases hrest with h1 | h1 | ⟨st2, hb, hc, ht1, hm⟩
          · exact Or.inl h1
          · exact Or.inr (Or.inl h1)
          · exact Or.inr (Or.inr ⟨st2, hb, hc, by omega, hm⟩)

/-- The main iteration is entered with `iter = 0` (lines 195-203). -/
theorem entry_iter (p : Params α) (st : St α) : (clearB p (initLocals p st)).iter = 0 := by
  unfold clearB
  split_ifs <;> rfl

theorem entry_cells (p : Params α) (st : St α) :
    (clearB p (initLocals p st)).ITER = st.ITER ∧
      (clearB p (initLocals p st)).MPROD = st.MPROD := by
  unfold clearB
  split_ifs <;> exact ⟨rfl, rfl⟩

theorem sweepsFrom_earlier (ker : Kernels α) (p : Params α) :
    ∀ (t : Nat) (st stt : St α), sweepsFrom ker p t st = some stt →
      ∀ i, i < t → ∃ si si2, sweepsFrom ker p i st = some si ∧
        buildBasis ker p si = Flow.next si2 ∧ (smallSvd ker p si2).converged ≠ 1 := by
  intro t
  induction t with
  | zero => intro st stt _ i hi; omega
  | succ t ih =>
    intro st stt h i hi
    simp only [sweepsFrom] at h
    cases hs : sweep ker p st with
    | ret c s1 => rw [hs] at h; cases h
    | brk s1 => rw [hs] at h; cases h
    | next s1 =>
      rw [hs] at h
      cases i with
      | zero =>
        obtain ⟨st2, hb, hc, _⟩ := sweep_next ker p st s1 hs
        exact ⟨st, st2, rfl, hb, hc⟩
      | succ i =>
        obtain ⟨si, si2, h1, h2, h3⟩ := ih s1 stt h i (by omega)
        refine ⟨si, si2, ?_, h2, h3⟩
        simp only [sweepsFrom, hs]
        exact h1

/-- The three ways a call with valid dimensions and `maxit ≥ 1` ends: a
`return` inside sweep `t`, convergence at sweep `t`, or exhaustion of `maxit`
after the non-converged sweep `t = maxit - 1`. -/
theorem irlb_cases (ker : Kernels α) (p : Params α) (st : St α)
    (hw : 4 ≤ p.work) (hn : 4 ≤ p.n) (hm : 4 ≤ p.m) (hmax : 1 ≤ p.maxit) :
    ∃ (t : Nat) (stt : St α), (t : Int) < p.maxit ∧
      sweepsFrom ker p t (clearB p (initLocals p st)) = some stt ∧
      ((∃ c s1, buildBasis ker p stt = Flow.ret c s1 ∧
          irlb ker p st = { status := c, mem := s1 }) ∨
       (∃ st2, buildBasis ker p stt = Flow.next st2 ∧
          (smallSvd ker p st2).converged = 1 ∧
          irlb ker p st =
            results p { smallSvd ker p st2 with iter := (smallSvd ker p st2).iter + 1 }) ∨
       (∃ st2, buildBasis ker p stt = Flow.next st2 ∧
          (smallSvd ker p st2).converged ≠ 1 ∧ (t : Int) + 1 = p.maxit ∧
          irlb ker p st = results p (restartTruncate p (smallSvd ker p st2)))) := by
  have hdim : ¬ (p.work < 4 ∨ p.n < 4 ∨ p.m < 4) := by omega
  have hirlb : irlb ker p st =
      match mainLoop ker p p.maxit.toNat (clearB p (initLocals p st)) with
      | Flow.ret code st1 => { status := code, mem := st1 }
      | Flow.brk st1 => results p st1
      | Flow.next st1 => results p st1 := by
    unfold irlb
    simp only [if_neg hdim]
  have hfuel : p.maxit.toNat = (p.maxit - (clearB p (initLocals p st)).iter).toNat := by
    rw [entry_iter]; simp
  rcases mainLoop_cases ker p _ _ hfuel with ⟨h0, _⟩ | ⟨t, stt, ht, hsf, hrest⟩
  · omega
  · refine ⟨t, stt, by omega, hsf, ?_⟩
    rcases hrest with ⟨c, s1, hb, hm1⟩ | ⟨st2, hb, hc, hm1⟩ | ⟨st2, hb, hc, ht1, hm1⟩
    · exact Or.inl ⟨c, s1, hb, by rw [hirlb, hm1]⟩
    · exact Or.inr (Or.inl ⟨st2, hb, hc, by rw [hirlb, hm1]⟩)
    · exact Or.inr (Or.inr ⟨st2, hb, hc, by omega, by rw [hirlb, hm1]⟩)

theorem irlb_invalid (ker : Kernels α) (p : Params α) (st : St α)
    (h : p.work < 4 ∨ p.n < 4 ∨ p.m < 4) :
    irlb ker p st = { status := -1, mem := initLocals p st } := by
  unfold irlb
  simp only [if_pos h]

theorem irlb_maxit_nonpos (ker : Kernels α) (p : Params α) (st : St α)
    (hdim : ¬ (p.work < 4 ∨ p.n < 4 ∨ p.m < 4)) (hmax : p.maxit ≤ 0) :
    irlb ker p st = results p (clearB p (initLocals p st)) := by
  have h0 : p.maxit.toNat = 0 := by omega
  unfold irlb
  simp only [if_neg hdim, h0, mainLoop]

theorem results_status (p : Params α) (st : St α) :
    (results p st).status = 0 ∨ (results p st).status = -2 := by
  show (if st.converged = 1 then (0 : Int) else -2) = 0 ∨
    (if st.converged = 1 then (0 : Int) else -2) = -2
  split_ifs
  · exact Or.inl rfl
  · exact Or.inr rfl

theorem index_lt {m nu i c : Nat} (hi : i < m) (hc : c < nu) : i + m * c < m * nu := by
  calc i + m * c < m + m * c := by omega
    _ = m * (c + 1) := by ring
    _ ≤ m * nu := Nat.mul_le_mul_left m hc

theorem index_mod {m i c : Nat} (hi : i < m) : (i + m * c) % m = i := by
  rw [Nat.add_mul_mod_self_left, Nat.mod_eq_of_lt hi]

theorem index_div {m i c : Nat} (hi : i < m) : (i + m * c) / m = c := by
  have hm : 0 < m := by omega
  rw [Nat.add_mul_div_left _ _ hm, Nat.div_eq_of_lt hi, Nat.zero_add]

theorem blit_zero_lt (dst src : Nat → α) (len i : Nat) (h : i < len) :
    blit dst 0 len src i = src i := by
  simp [blit, h]

/-- The outputs written by the results block, entry by entry. -/
theorem results_outputs (p : Params α) (st : St α) :
    (∀ i, i < p.nu → (results p st).mem.s i = st.BS i) ∧
    (∀ i c, i < p.m.toNat → c < p.nu →
      (results p st).mem.U (i + p.m.toNat * c) =
        sumTo p.work.toNat
          (fun l => st.W (i + p.m.toNat * l) * st.BU (l + p.work.toNat * c))) ∧
    (∀ i c, i < p.n.toNat → c < p.nu →
      (results p st).mem.V (i + p.n.toNat * c) =
        sumTo p.work.toNat
          (fun l => st.V (i + p.n.toNat * l) * st.BV (c + p.work.toNat * l))) := by
  refine ⟨fun i hi => ?_, fun i c hi hc => ?_, fun i c hi hc => ?_⟩
  · show blit st.s 0 p.nu st.BS i = st.BS i
    exact blit_zero_lt _ _ _ _ hi
  · show blit st.U 0 (p.m.toNat * p.nu)
        (dgemmNN p.m.toNat p.nu p.work.toNat st.W p.m.toNat st.BU p.work.toNat)
        (i + p.m.toNat * c) = _
    rw [blit_zero_lt _ _ _ _ (index_lt hi hc)]
    simp only [dgemmNN, index_mod hi, index_div hi]
  · show blit st.V 0 (p.n.toNat * p.nu) (blit st.V1 0 (p.n.toNat * p.nu)
        (dgemmNT p.n.toNat p.nu p.work.toNat st.V p.n.toNat st.BV p.work.toNat))
        (i + p.n.toNat * c) = _
    rw [blit_zero_lt _ _ _ _ (index_lt hi hc), blit_zero_lt _ _ _ _ (index_lt hi hc)]
    simp only [dgemmNT, index_mod hi, index_div hi]

end Frame

/-! ## Columns of `W` and the residual norm across the inner loop -/

section Columns
variable [LinearOrderedField α]

theorem blit_below (dst src : Nat → α) (o len i : Nat) (h : i < o) :
    blit dst o len src i = dst i := by
  have h1 : ¬ (o ≤ i ∧ i < o + len) := by omega
  simp only [blit, if_neg h1]

theorem forwardMultiply_W_below (ker : Kernels α) (p : Params α) (st : St α) (c idx : Nat)
    (h : idx < c * p.m.toNat) : (forwardMultiply ker p st c).W idx = st.W idx := by
  unfold forwardMultiply
  dsimp only
  cases p.shift <;> cases p.center <;> simp only [blit_below _ _ _ _ _ h]

theorem lanczosExtend_W_below (ker : Kernels α) (p : Params α) (st st1 : St α)
    (h : lanczosExtend ker p st = Flow.next st1) (idx : Nat)
    (hidx : idx < (st.j + 1) * p.m.toNat) : st1.W idx = st.W idx := by
  unfold lanczosExtend at h
  dsimp only at h
  split_ifs at h <;> cases h <;>
    simp only [blit_below _ _ _ _ _ hidx, forwardMultiply_W_below _ _ _ _ _ hidx]

theorem lanczosStep_W_below (ker : Kernels α) (p : Params α) (st st1 : St α)
    (h : lanczosStep ker p st = Flow.next st1) (idx : Nat)
    (hidx : idx < (st.j + 1) * p.m.toNat) : st1.W idx = st.W idx := by
  unfold lanczosStep at h
  dsimp only at h
  split_ifs at h
  · rw [lanczosExtend_W_below ker p _ st1 h idx (by simpa using hidx)]
    rfl
  · cases h
    rfl

theorem lanczosStep_RF (ker : Kernels α) (p : Params α) (st st1 : St α)
    (h : lanczosStep ker p st = Flow.next st1) :
    ∃ x, st1.R_F = ker.dnrm2 p.n.toNat x := by
  unfold lanczosStep at h
  dsimp only at h
  split_ifs at h
  · rw [(lanczosExtend_next ker p _ st1 h).2.2.2.2.2.2.2]
    exact lanczosResidual_RF ker p st
  · cases h
    exact lanczosResidual_RF ker p st

theorem lanczosLoop_W_below (ker : Kernels α) (p : Params α) :
    ∀ (fuel : Nat) (st st1 : St α), lanczosLoop ker p fuel st = Flow.next st1 →
      ∀ idx, idx < (st.j + 1) * p.m.toNat → st1.W idx = st.W idx := by
  intro fuel
  induction fuel with
  | zero =>
    intro st st1 h idx _
    simp only [lanczosLoop] at h
    cases h
    rfl
  | succ f ih =>
    intro st st1 h idx hidx
    simp only [lanczosLoop] at h
    split_ifs at h
    · cases hs : lanczosStep ker p st with
      | ret c s2 => rw [hs] at h; cases h
      | brk s2 => rw [hs] at h; cases h
      | next s2 =>
        rw [hs] at h
        have hj := (lanczosStep_next ker p st s2 hs).2.2.1
        have hlt : idx < (s2.j + 1) * p.m.toNat := by
          rw [hj]
          calc idx < (st.j + 1) * p.m.toNat := hidx
            _ ≤ (st.j + 1 + 1) * p.m.toNat := Nat.mul_le_mul_right _ (by omega)
        rw [ih s2 st1 h idx hlt, lanczosStep_W_below ker p st s2 hs idx hidx]
    · cases h
      rfl

theorem lanczosLoop_RF (ker : Kernels α) (p : Params α) :
    ∀ (fuel : Nat) (st st1 : St α), lanczosLoop ker p fuel st = Flow.next st1 →
      ((∃ x, st.R_F = ker.dnrm2 p.n.toNat x) ∨ (0 < fuel ∧ st.j < p.work.toNat)) →
      ∃ x, st1.R_F = ker.dnrm2 p.n.toNat x := by
  intro fuel
  induction fuel with
  | zero =>
    intro st st1 h hP
    simp only [lanczosLoop] at h
    cases h
    rcases hP with hP | ⟨h0, _⟩
    · exact hP
    · omega
  | succ f ih =>
    intro st st1 h hP
    simp only [lanczosLoop] at h
    split_ifs at h with hlt
    · cases hs : lanczosStep ker p st with
      | ret c s2 => rw [hs] at h; cases h
      | brk s2 => rw [hs] at h; cases h
      | next s2 =>
        rw [hs] at h
        exact ih s2 st1 h (Or.inl (lanczosStep_RF ker p st s2 hs))
    · cases h
      rcases hP with hP | ⟨_, hj⟩
      · exact hP
      · exact absurd hj hlt

/-- After the basis-building phase of a sweep that starts at a column
`j0 < work`: `j = work`, `R_F` is a norm returned by `dnrm2`, and the columns
of `W` up to `j0` are as the start of the sweep left them. -/
theorem buildBasis_built (ker : Kernels α) (p : Params α) (st st2 : St α)
    (h : buildBasis ker p st = Flow.next st2) (hj : startColumn p st < p.work.toNat) :
    st2.j = p.work.toNat ∧ (∃ x, st2.R_F = ker.dnrm2 p.n.toNat x) ∧
      ∃ s1, sweepInit ker p st = Flow.next s1 ∧
        ∀ idx, idx < (startColumn p st + 1) * p.m.toNat → st2.W idx = s1.W idx := by
  unfold buildBasis at h
  cases hs : sweepInit ker p st with
  | ret c s1 => rw [hs] at h; cases h
  | brk s1 => rw [hs] at h; cases h
  | next s1 =>
    rw [hs] at h
    dsimp only at h
    have hj1 : s1.j = startColumn p st := (sweepInit_next ker p st s1 hs).2.2.1
    refine ⟨(lanczosLoop_next ker p _ s1 st2 (by omega) h).2.2.1,
      lanczosLoop_RF ker p _ s1 st2 h (Or.inr ⟨by omega, by omega⟩), s1, rfl, ?_⟩
    intro idx hidx
    exact lanczosLoop_W_below ker p _ s1 st2 h idx (by rw [hj1]; exact hidx)

end Columns

/-! ## The matrix `B` after a restart -/

section Restart
variable [LinearOrderedField α]

theorem cell_inj {work c r c1 r1 : Nat} (hr : r < work) (hr1 : r1 < work) :
    c * work + r = c1 * work + r1 ↔ c = c1 ∧ r = r1 := by
  constructor
  · intro h
    have h1 : (r + work * c) / work = (r1 + work * c1) / work := by
      rw [show r + work * c = c * work + r by ring, h]
      congr 1
      ring
    have h2 : (r + work * c) % work = (r1 + work * c1) % work := by
      rw [show r + work * c = c * work + r by ring, h]
      congr 1
      ring
    rw [index_div hr, index_div hr1] at h1
    rw [index_mod hr, index_mod hr1] at h2
    exact ⟨h1, h2⟩
  · rintro ⟨rfl, rfl⟩
    rfl

theorem restartB_cell (work k : Nat) (BS res B0 : Nat → α) :
    ∀ (n r c : Nat), r < work → n ≤ work →
      restartB work k BS res n B0 (c * work + r) =
        if r < n ∧ c = k then res r
        else if r < n ∧ c = r then BS r
        else B0 (c * work + r) := by
  intro n
  induction n with
  | zero =>
    intro r c _ _
    simp [restartB]
  | succ n ih =>
    intro r c hr hn
    have hn1 : n < work := by omega
    have e1 : (c * work + r = k * work + n) ↔ (c = k ∧ r = n) := cell_inj hr hn1
    have e2 : (c * work + r = n * work + n) ↔ (c = n ∧ r = n) := cell_inj hr hn1
    simp only [restartB, setAt, e1, e2, ih r c hr (by omega)]
    by_cases hrn : r = n
    · subst hrn
      by_cases hck : c = k
      · simp [hck]
      · by_cases hcr : c = r
        · simp [hck, hcr]
        · simp [hck, hcr]
    · have hlt : r < n + 1 ↔ r < n := by omega
      simp only [hrn, and_false, if_false, hlt]

theorem restartTruncate_B_cell (p : Params α) (st : St α) (r c : Nat)
    (hk : st.k < p.work.toNat) (hr : r < p.work.toNat) (hc : c < p.work.toNat) :
    (restartTruncate p st).B (c * p.work.toNat + r) =
      if r < st.k ∧ c = st.k then st.res r
      else if r < st.k ∧ c = r then st.BS r
      else 0 := by
  show restartB p.work.toNat st.k st.BS st.res st.k
      (memset0 st.B (p.work.toNat * p.work.toNat)) (c * p.work.toNat + r) = _
  rw [restartB_cell p.work.toNat st.k st.BS st.res _ st.k r c hr (le_of_lt hk)]
  have hlt : c * p.work.toNat + r < p.work.toNat * p.work.toNat := by
    calc c * p.work.toNat + r < c * p.work.toNat + p.work.toNat := by omega
      _ = (c + 1) * p.work.toNat := by ring
      _ ≤ p.work.toNat * p.work.toNat := Nat.mul_le_mul_right _ hc
  simp only [memset0, if_pos hlt]

end Restart

/-! ## Early returns and the multiply count of a sweep -/

section Total
variable [LinearOrderedField α]

/-- A `return` taken by the first sweep is the result of the call. -/
theorem irlb_first_sweep_ret (ker : Kernels α) (p : Params α) (st s1 : St α) (c : Int)
    (hw : 4 ≤ p.work) (hn4 : 4 ≤ p.n) (hm : 4 ≤ p.m) (hmax : 1 ≤ p.maxit)
    (h : sweepInit ker p (clearB p (initLocals p st)) = Flow.ret c s1) :
    irlb ker p st = { status := c, mem := s1 } := by
  have hdim : ¬ (p.work < 4 ∨ p.n < 4 ∨ p.m < 4) := by omega
  obtain ⟨f, hf⟩ : ∃ f, p.maxit.toNat = f + 1 := ⟨p.maxit.toNat - 1, by omega⟩
  have hlt : (clearB p (initLocals p st)).iter < p.maxit := by rw [entry_iter]; omega
  unfold irlb
  simp only [if_neg hdim, hf, mainLoop, if_pos hlt, sweep, buildBasis, h]

theorem entry_V (p : Params α) (st : St α) : (clearB p (initLocals p st)).V = st.V := by
  unfold clearB
  split_ifs <;> rfl

theorem irlb_small_start (ker : Kernels α) (p : Params α) (st : St α)
    (hw : 4 ≤ p.work) (hn4 : 4 ≤ p.n) (hm : 4 ≤ p.m) (hmax : 1 ≤ p.maxit)
    (hr : p.restart = 0) (hd : ker.dnrm2 p.n.toNat st.V < 2 * p.eps) :
    irlb ker p st = { status := -1, mem := { clearB p (initLocals p st) with j := 0 } } := by
  apply irlb_first_sweep_ret ker p st _ _ hw hn4 hm hmax
  unfold sweepInit
  dsimp only
  have hc : (clearB p (initLocals p st)).iter = 0 ∧ p.restart = 0 := ⟨entry_iter p st, hr⟩
  rw [if_pos hc, entry_V, if_pos hd]

theorem sweepInitMult_small (ker : Kernels α) (p : Params α) (st : St α)
    (hi : st.iter = 0) (hj : st.j = 0)
    (hS : ker.dnrm2 p.m.toNat (off (forwardMultiply ker p st 0).W (0 * p.m.toNat)) < p.eps) :
    ∃ s1, sweepInitMult ker p st = Flow.ret (-5) s1 ∧ s1.mprod = st.mprod + 1 ∧
      s1.ITER = st.ITER ∧ s1.MPROD = st.MPROD := by
  have hi0 : ¬ (st.iter > 0) := by rw [hi]; simp
  unfold sweepInitMult
  dsimp only
  simp only [forwardMultiply_iter, hi0, if_false, forwardMultiply_j, hj, zero_ne_one,
    and_false, if_pos hS]
  exact ⟨_, rfl, rfl, rfl, rfl⟩

theorem irlb_first_step_small (ker : Kernels α) (p : Params α) (st : St α)
    (hw : 4 ≤ p.work) (hn4 : 4 ≤ p.n) (hm : 4 ≤ p.m) (hmax : 1 ≤ p.maxit)
    (hr : p.restart = 0) (hd : ¬ ker.dnrm2 p.n.toNat st.V < 2 * p.eps)
    (hS : firstColumnNorm ker p st < p.eps) :
    ∃ s1, irlb ker p st = { status := -5, mem := s1 } ∧ s1.mprod = 1 ∧
      s1.ITER = st.ITER ∧ s1.MPROD = st.MPROD := by
  have hc : (clearB p (initLocals p st)).iter = 0 ∧ p.restart = 0 := ⟨entry_iter p st, hr⟩
  have hmp : (clearB p (initLocals p st)).mprod = 0 := by
    unfold clearB; split_ifs <;> rfl
  obtain ⟨hI, hM⟩ := entry_cells p st
  obtain ⟨s1, h1, h2, h3, h4⟩ := sweepInitMult_small ker p
    { clearB p (initLocals p st) with
      j := 0,
      V := blit (clearB p (initLocals p st)).V 0 p.n.toNat
        (dscal (1 / ker.dnrm2 p.n.toNat (clearB p (initLocals p st)).V)
          (clearB p (initLocals p st)).V) }
    (entry_iter p st) rfl hS
  refine ⟨s1, irlb_first_sweep_ret ker p st s1 (-5) hw hn4 hm hmax ?_, ?_, ?_, ?_⟩
  · unfold sweepInit
    dsimp only
    rw [if_pos hc, if_neg (by rw [entry_V]; exact hd)]
    exact h1
  · rw [h2]
    show (clearB p (initLocals p st)).mprod + 1 = 1
    rw [hmp]; simp
  · rw [h3]; exact hI
  · rw [h4]; exact hM

theorem ex_start_norm :
    ¬ (kerL1 2 0).dnrm2 (exParams 0 0 1).n.toNat (exMem 1).V < 2 * (exParams 0 0 1).eps := by
  norm_num [kerL1, exMem, exParams, sumTo]

theorem ex_zero_start_norm :
    (kerL1 2 0).dnrm2 (exParams 1 0 1).n.toNat (exMem 0).V < 2 * (exParams 1 0 1).eps := by
  norm_num [kerL1, exMem, exParams, sumTo]

theorem ex_first_column_norm :
    firstColumnNorm (kerL1 2 0) (exParams 0 0 1) (exMem 1) < (exParams 0 0 1).eps := by
  norm_num [firstColumnNorm, kerL1, exMem, exParams, sumTo, forwardMultiply, off, blit,
    dgemvN, inputX, applyScale]

theorem ex_dims (a : ℚ) (mult maxit : Int) :
    (4 : Int) ≤ (exParams a mult maxit).work ∧ (4 : Int) ≤ (exParams a mult maxit).n ∧
      (4 : Int) ≤ (exParams a mult maxit).m := by
  simp [exParams]

/-- Multiply count of a sweep that reaches the convergence test. -/
theorem sweep_done_mprod (ker : Kernels α) (p : Params α) (st st1 : St α)
    (hdone : sweep ker p st = Flow.next st1 ∨ sweep ker p st = Flow.brk st1)
    (hj : startColumn p st < p.work.toNat) :
    st1.mprod = st.mprod + 2 * ((p.work.toNat : Int) - (startColumn p st : Int)) := by
  have key : ∀ st2, buildBasis ker p st = Flow.next st2 →
      st2.mprod = st.mprod + 2 * ((p.work.toNat : Int) - (startColumn p st : Int)) := by
    intro st2 hb
    obtain ⟨_, a2, _⟩ := buildBasis_next ker p st st2 hb
    rw [a2]
    have hne : ¬ (p.work.toNat - startColumn p st = 0) := by omega
    rw [if_neg hne]
    push_cast [Nat.cast_sub (le_of_lt hj)]
    ring
  rcases hdone with h | h
  · obtain ⟨st2, hb, _, rfl⟩ := sweep_next ker p st st1 h
    exact key st2 hb
  · obtain ⟨st2, hb, _, rfl⟩ := sweep_brk ker p st st1 h
    exact key st2 hb

theorem restartTruncate_W_cols (p : Params α) (st : St α) (i l : Nat)
    (hi : i < p.m.toNat) (hl : l < st.k) :
    (restartTruncate p st).W (i + p.m.toNat * l) =
      sumTo st.j (fun l1 => st.W (i + p.m.toNat * l1) * st.BU (l1 + p.work.toNat * l)) := by
  show blit st.W 0 (p.m.toNat * st.k) (blit st.U1 0 (p.m.toNat * st.k)
      (dgemmNN p.m.toNat st.k st.j st.W p.m.toNat st.BU p.work.toNat)) (i + p.m.toNat * l) = _
  rw [blit_zero_lt _ _ _ _ (index_lt hi hl), blit_zero_lt _ _ _ _ (index_lt hi hl)]
  simp only [dgemmNN, index_mod hi, index_div hi]

end Total

/-! ## Algebra of the multiply operator -/

section OperatorFacts
variable [LinearOrderedField α]

theorem sumTo_eq_sum (n : Nat) (f : Nat → α) : sumTo n f = ∑ l in Finset.range n, f l := by
  induction n with
  | zero => simp [sumTo]
  | succ n ih => rw [sumTo, ih, Finset.sum_range_succ]

theorem blit_at (dst src : Nat → α) (o len i : Nat) (h : i < len) :
    blit dst o len src (o + i) = src i := by
  have h1 : o ≤ o + i ∧ o + i < o + len := ⟨by omega, by omega⟩
  simp only [blit, if_pos h1]
  congr 1
  omega

theorem inputX_entry (n : Nat) (st : St α) (c l : Nat) (hl : l < n) :
    inputX n st c l = 1 / scaleVal st l * st.V (c * n + l) := by
  unfold inputX applyScale scaleVal
  cases hsc : st.scale with
  | none => simp [off]
  | some sc =>
    simp only [off]
    rw [blit_at _ _ _ _ _ hl]
    field_simp

theorem forward_entry (ker : Kernels α) (p : Params α) (st : St α) (c i : Nat)
    (hdense : p.mult ≠ 1) (hi : i < p.m.toNat) :
    (forwardMultiply ker p st c).W (c * p.m.toNat + i) =
      sumTo p.n.toNat (fun l => p.A (i + p.m.toNat * l) * inputX p.n.toNat st c l)
        + (match p.shift with
           | none => 0
           | some sh => sh * inputX p.n.toNat st c i)
        - (match p.center with
           | none => 0
           | some ce => ddot p.n.toNat (inputX p.n.toNat st c) ce) := by
  unfold forwardMultiply
  simp only [if_neg hdense]
  cases hs : p.shift <;> cases hc : p.center <;>
    simp only [blit_at _ _ _ _ _ hi, dgemvN] <;> ring

theorem transpose_entry (ker : Kernels α) (p : Params α) (st : St α) (j l : Nat)
    (hdense : p.mult ≠ 1) (hl : l < p.n.toNat) :
    (transposeMultiply ker p st j).F l =
      1 / scaleVal st l *
        sumTo p.m.toNat (fun i => shiftedEntry p i l * st.W (j * p.m.toNat + i)) := by
  have hsum : sumTo p.m.toNat (fun i => shiftedEntry p i l * st.W (j * p.m.toNat + i)) =
      sumTo p.m.toNat (fun i => p.A (i + p.m.toNat * l) * st.W (j * p.m.toNat + i)) +
        (if l < p.m.toNat then shiftVal p * st.W (j * p.m.toNat + l) else 0) := by
    simp only [sumTo_eq_sum, shiftedEntry, add_mul, Finset.sum_add_distrib, ite_mul, zero_mul]
    congr 1
    rw [Finset.sum_ite_eq' (Finset.range p.m.toNat) l
      (fun x => shiftVal p * st.W (j * p.m.toNat + x))]
    simp only [Finset.mem_range]
  rw [hsum]
  unfold transposeMultiply scaleVal shiftVal
  simp only [if_neg hdense]
  cases hs : p.shift <;> cases hc : st.scale <;> by_cases hlm : l < p.m.toNat <;>
    simp [blit, hl, hlm, dgemvT, off] <;> ring

theorem forward_formula (ker : Kernels α) (p : Params α) (st : St α) (c i : Nat)
    (hdense : p.mult ≠ 1) (hshift : p.shift ≠ none → p.m.toNat = p.n.toNat)
    (hi : i < p.m.toNat) :
    (forwardMultiply ker p st c).W (c * p.m.toNat + i) =
      sumTo p.n.toNat (fun l => (shiftedEntry p i l - centerVal p l) *
        (1 / scaleVal st l * st.V (c * p.n.toNat + l))) := by
  rw [forward_entry ker p st c i hdense hi]
  have h1 : sumTo p.n.toNat (fun l => p.A (i + p.m.toNat * l) * inputX p.n.toNat st c l) =
      ∑ l in Finset.range p.n.toNat,
        p.A (i + p.m.toNat * l) * (1 / scaleVal st l * st.V (c * p.n.toNat + l)) := by
    rw [sumTo_eq_sum]
    refine Finset.sum_congr rfl (fun l hl => ?_)
    rw [inputX_entry _ _ _ _ (Finset.mem_range.mp hl)]
  have h2 : (match p.shift with
      | none => (0 : α)
      | some sh => sh * inputX p.n.toNat st c i) =
      ∑ l in Finset.range p.n.toNat,
        (if i = l then shiftVal p else 0) * (1 / scaleVal st l * st.V (c * p.n.toNat + l)) := by
    simp only [ite_mul, zero_mul]
    rw [Finset.sum_ite_eq (Finset.range p.n.toNat) i
      (fun l => shiftVal p * (1 / scaleVal st l * st.V (c * p.n.toNat + l)))]
    cases hs : p.shift with
    | none => simp [shiftVal, hs]
    | some sh =>
      have hmn := hshift (by rw [hs]; simp)
      have hin : i < p.n.toNat := by omega
      simp only [Finset.mem_range, if_pos hin, shiftVal, hs]
      rw [inputX_entry _ _ _ _ hin]
  have h3 : (match p.center with
      | none => (0 : α)
      | some ce => ddot p.n.toNat (inputX p.n.toNat st c) ce) =
      ∑ l in Finset.range p.n.toNat,
        centerVal p l * (1 / scaleVal st l * st.V (c * p.n.toNat + l)) := by
    cases hc : p.center with
    | none => simp [centerVal, hc]
    | some ce =>
      simp only [ddot, sumTo_eq_sum, centerVal, hc]
      refine Finset.sum_congr rfl (fun l hl => ?_)
      rw [inputX_entry _ _ _ _ (Finset.mem_range.mp hl)]
      ring
  rw [h1, h2, h3, sumTo_eq_sum]
  simp only [shiftedEntry, sub_mul, add_mul, Finset.sum_sub_distrib, Finset.sum_add_distrib]

end OperatorFacts

/-! ## The resumed example run -/

section Resumed

theorem eCols_succ_outside (q idx : Nat) (hq : q < 6)
    (h : ¬ (6 * q ≤ idx ∧ idx < 6 * q + 6)) : eCols (q + 1) idx = eCols q idx := by
  simp only [eCols]
  by_cases h1 : idx % 7 = 0 ∧ idx < 7 * q
  · have h2 : idx % 7 = 0 ∧ idx < 7 * (q + 1) := ⟨h1.1, by omega⟩
    rw [if_pos h1, if_pos h2]
  · have h2 : ¬ (idx % 7 = 0 ∧ idx < 7 * (q + 1)) := by
      intro h3
      apply h1
      refine ⟨h3.1, ?_⟩
      by_contra h4
      have h5 : idx = 7 * q := by omega
      omega
    rw [if_neg h1, if_neg h2]

/-- Start of the resumed sweep: column 3 of `W` becomes `e3`, with `S = 12`. -/
theorem rs_sweepInitMult (k : Nat) (conv maxit : Int) (s : St ℚ)
    (hV : s.V = eCols 4) (hW : s.W = eCols 3) (hj : s.j = 3)
    (hsc : s.scale = none) (hi : s.iter = 0) :
    ∃ s1, sweepInitMult (kerExact k conv) (rsParams maxit) s = Flow.next s1 ∧
      s1.V = eCols 4 ∧ s1.W = eCols 4 ∧ s1.S = 12 ∧ s1.j = 3 ∧ s1.scale = none ∧
      s1.iter = 0 ∧ s1.B = s.B := by
  have hm : (6 : Int).toNat = 6 := rfl
  have hfm : blit (eCols 3) 18 6 (dgemvN 6 6 rsA (off (eCols 4) 18)) =
      fun idx => if idx = 21 then 12 else eCols 3 idx := by
    funext idx
    by_cases h : 18 ≤ idx ∧ idx < 18 + 6
    · obtain ⟨h1, h2⟩ := h
      interval_cases idx <;> norm_num [blit, off, dgemvN, sumTo, eCols, rsA]
    · have h21 : idx ≠ 21 := by omega
      simp only [blit, if_neg h, if_neg h21]
  have hS : (sumTo 6 fun i => |off (fun idx => if idx = 21 then (12 : ℚ) else eCols 3 idx) 18 i|)
      = 12 := by
    norm_num [sumTo, off, eCols]
  have hW1 : blit (fun idx => if idx = 21 then (12 : ℚ) else eCols 3 idx) 18 6
      (dscal (1 / 12 : ℚ) (off (fun idx => if idx = 21 then (12 : ℚ) else eCols 3 idx) 18)) =
      eCols 4 := by
    funext idx
    by_cases h : 18 ≤ idx ∧ idx < 18 + 6
    · obtain ⟨h1, h2⟩ := h
      interval_cases idx <;> norm_num [blit, off, dscal, eCols]
    · have h21 : idx ≠ 21 := by omega
      simp only [blit, if_neg h, if_neg h21]
      exact (eCols_succ_outside 3 idx (by norm_num) (by omega)).symm
  unfold sweepInitMult
  simp only [forwardMultiply, inputX, applyScale, kerExact, rsParams, hm, hV, hW, hj, hsc, hi]
  norm_num
  rw [hfm, hS]
  norm_num
  exact hW1

/-- Residual of step `j = 3`: `F = 7 e4`, `R_F = 7`. -/
theorem rs_residual3 (k : Nat) (conv maxit : Int) (s : St ℚ)
    (hV : s.V = eCols 4) (hW : s.W = eCols 4) (hS : s.S = 12) (hj : s.j = 3)
    (hsc : s.scale = none) :
    (∀ i, i < 6 → (lanczosResidual (kerExact k conv) (rsParams maxit) s).F i =
      if i = 4 then 7 else 0) ∧
    (lanczosResidual (kerExact k conv) (rsParams maxit) s).R_F = 7 := by
  have hm : (6 : Int).toNat = 6 := rfl
  have hF : ∀ i, i < 6 → (lanczosResidual (kerExact k conv) (rsParams maxit) s).F i =
      if i = 4 then 7 else 0 := by
    intro i hi
    simp only [lanczosResidual, transposeMultiply, kerExact, orthogGS, rsParams, hm, hV, hW, hS,
      hj, hsc]
    interval_cases i <;> norm_num [blit, daxpy, off, dgemvT, sumTo, eCols, rsA]
  refine ⟨hF, ?_⟩
  show sumTo 6 (fun i => |(lanczosResidual (kerExact k conv) (rsParams maxit) s).F i|) = 7
  simp only [sumTo]
  rw [hF 0 (by norm_num), hF 1 (by norm_num), hF 2 (by norm_num), hF 3 (by norm_num),
    hF 4 (by norm_num), hF 5 (by norm_num)]
  norm_num

/-- Residual of step `j = 4`: `F = 5 e5`, `R_F = 5`. -/
theorem rs_residual4 (k : Nat) (conv maxit : Int) (s : St ℚ)
    (hV : s.V = eCols 5) (hW : s.W = eCols 5) (hS : s.S = 12) (hj : s.j = 4)
    (hsc : s.scale = none) :
    (∀ i, i < 6 → (lanczosResidual (kerExact k conv) (rsParams maxit) s).F i =
      if i = 5 then 5 else 0) ∧
    (lanczosResidual (kerExact k conv) (rsParams maxit) s).R_F = 5 := by
  have hm : (6 : Int).toNat = 6 := rfl
  have hF : ∀ i, i < 6 → (lanczosResidual (kerExact k conv) (rsParams maxit) s).F i =
      if i = 5 then 5 else 0 := by
    intro i hi
    simp only [lanczosResidual, transposeMultiply, kerExact, orthogGS, rsParams, hm, hV, hW, hS,
      hj, hsc]
    interval_cases i <;> norm_num [blit, daxpy, off, dgemvT, sumTo, eCols, rsA]
  refine ⟨hF, ?_⟩
  show sumTo 6 (fun i => |(lanczosResidual (kerExact k conv) (rsParams maxit) s).F i|) = 5
  simp only [sumTo]
  rw [hF 0 (by norm_num), hF 1 (by norm_num), hF 2 (by norm_num), hF 3 (by norm_num),
    hF 4 (by norm_num), hF 5 (by norm_num)]
  norm_num

/-- Second half of step `j = 3`: column 4 of `V` and of `W` become `e4`, with
`S = 12`, and `B[3,3] = 12`, `B[3,4] = 7` are stored. -/
theorem rs_extend3 (k : Nat) (conv maxit : Int) (r : St ℚ)
    (hV : r.V = eCols 4) (hW : r.W = eCols 4) (hS : r.S = 12) (hj : r.j = 3)
    (hsc : r.scale = none) (hi : r.iter = 0)
    (hF : ∀ i, i < 6 → r.F i = if i = 4 then 7 else 0) (hRF : r.R_F = 7) :
    ∃ s1, lanczosExtend (kerExact k conv) (rsParams maxit) r = Flow.next s1 ∧
      s1.V = eCols 5 ∧ s1.W = eCols 5 ∧ s1.S = 12 ∧ s1.j = 4 ∧ s1.scale = none ∧
      s1.iter = 0 ∧ s1.B = setAt (setAt r.B 18 12) 23 7 := by
  have hm : (6 : Int).toNat = 6 := rfl
  have hw : (5 : Int).toNat = 5 := rfl
  have hF0 : r.F 0 = 0 := by rw [hF 0 (by norm_num)]; norm_num
  have hF1 : r.F 1 = 0 := by rw [hF 1 (by norm_num)]; norm_num
  have hF2 : r.F 2 = 0 := by rw [hF 2 (by norm_num)]; norm_num
  have hF3 : r.F 3 = 0 := by rw [hF 3 (by norm_num)]; norm_num
  have hF4 : r.F 4 = 7 := by rw [hF 4 (by norm_num)]; norm_num
  have hF5 : r.F 5 = 0 := by rw [hF 5 (by norm_num)]; norm_num
  have hV2 : blit (blit (eCols 4) 24 6 r.F) 24 6
      (dscal (1 / 7 : ℚ) (off (blit (eCols 4) 24 6 r.F) 24)) = eCols 5 := by
    funext idx
    by_cases h : 24 ≤ idx ∧ idx < 24 + 6
    · obtain ⟨h1, h2⟩ := h
      interval_cases idx <;>
        norm_num [blit, off, dscal, eCols, hF0, hF1, hF2, hF3, hF4, hF5]
    · simp only [blit, if_neg h]
      exact (eCols_succ_outside 4 idx (by norm_num) (by omega)).symm
  have hfm : blit (eCols 4) 24 6 (dgemvN 6 6 rsA (off (eCols 5) 24)) =
      fun idx => if idx = 27 then 7 else if idx = 28 then 12 else eCols 4 idx := by
    funext idx
    by_cases h : 24 ≤ idx ∧ idx < 24 + 6
    · obtain ⟨h1, h2⟩ := h
      interval_cases idx <;> norm_num [blit, off, dgemvN, sumTo, eCols, rsA]
    · have h27 : idx ≠ 27 := by omega
      have h28 : idx ≠ 28 := by omega
      simp only [blit, if_neg h, if_neg h27, if_neg h28]
  have hWd : blit (fun idx => if idx = 27 then (7 : ℚ) else if idx = 28 then 12 else eCols 4 idx)
      24 6 (daxpy (-7 : ℚ)
        (off (fun idx => if idx = 27 then (7 : ℚ) else if idx = 28 then 12 else eCols 4 idx) 18)
        (off (fun idx => if idx = 27 then (7 : ℚ) else if idx = 28 then 12 else eCols 4 idx) 24)) =
      fun idx => if idx = 28 then 12 else eCols 4 idx := by
    funext idx
    by_cases h : 24 ≤ idx ∧ idx < 24 + 6
    · obtain ⟨h1, h2⟩ := h
      interval_cases idx <;> norm_num [blit, off, daxpy, eCols]
    · have h27 : idx ≠ 27 := by omega
      have h28 : idx ≠ 28 := by omega
      simp only [blit, if_neg h, if_neg h27, if_neg h28]
  have hS1 : (sumTo 6 fun i => |off (fun idx => if idx = 28 then (12 : ℚ) else eCols 4 idx) 24 i|)
      = 12 := by
    norm_num [sumTo, off, eCols]
  have hW2 : blit (fun idx => if idx = 28 then (12 : ℚ) else eCols 4 idx) 24 6
      (dscal (1 / 12 : ℚ) (off (fun idx => if idx = 28 then (12 : ℚ) else eCols 4 idx) 24)) =
      eCols 5 := by
    funext idx
    by_cases h : 24 ≤ idx ∧ idx < 24 + 6
    · obtain ⟨h1, h2⟩ := h
      interval_cases idx <;> norm_num [blit, off, dscal, eCols]
    · have h28 : idx ≠ 28 := by omega
      simp only [blit, if_neg h, if_neg h28]
      exact (eCols_succ_outside 4 idx (by norm_num) (by omega)).symm
  unfold lanczosExtend
  simp only [forwardMultiply, inputX, applyScale, kerExact, orthogGS, rsParams, hm, hw, hV, hW, hS,
    hj, hsc, hi, hRF]
  norm_num
  rw [hV2, hfm, hWd, hS1]
  norm_num
  exact hW2

/-- Step `j = 3` of the resumed sweep. -/
theorem rs_step3 (k : Nat) (conv maxit : Int) (s : St ℚ)
    (hV : s.V = eCols 4) (hW : s.W = eCols 4) (hS : s.S = 12) (hj : s.j = 3)
    (hsc : s.scale = none) (hi : s.iter = 0) :
    ∃ s1, lanczosStep (kerExact k conv) (rsParams maxit) s = Flow.next s1 ∧
      s1.V = eCols 5 ∧ s1.W = eCols 5 ∧ s1.S = 12 ∧ s1.j = 4 ∧ s1.scale = none ∧
      s1.iter = 0 ∧ s1.B = setAt (setAt s.B 18 12) 23 7 := by
  obtain ⟨hF, hRF⟩ := rs_residual3 k conv maxit s hV hW hS hj hsc
  obtain ⟨s1, h1, h2⟩ := rs_extend3 k conv maxit
    (lanczosResidual (kerExact k conv) (rsParams maxit) s) hV hW hS hj hsc hi hF hRF
  refine ⟨s1, ?_, h2⟩
  have hlt : s.j + 1 < (rsParams maxit).work.toNat := by
    rw [hj]; show 3 + 1 < 5; norm_num
  have hne : ¬ ((lanczosResidual (kerExact k conv) (rsParams maxit) s).R_F <
      (rsParams maxit).eps) := by
    rw [hRF]; norm_num [rsParams]
  unfold lanczosStep
  dsimp only
  rw [if_pos hlt, if_neg hne]
  exact h1

/-- Step `j = 4`, the last one, of the resumed sweep. -/
theorem rs_step4 (k : Nat) (conv maxit : Int) (s : St ℚ)
    (hV : s.V = eCols 5) (hW : s.W = eCols 5) (hS : s.S = 12) (hj : s.j = 4)
    (hsc : s.scale = none) (hi : s.iter = 0) :
    ∃ s1, lanczosStep (kerExact k conv) (rsParams maxit) s = Flow.next s1 ∧
      s1.V = eCols 5 ∧ s1.W = eCols 5 ∧ s1.R_F = 5 ∧ s1.j = 5 ∧
      s1.B = setAt s.B 24 12 := by
  obtain ⟨_, hRF⟩ := rs_residual4 k conv maxit s hV hW hS hj hsc
  have hlt : ¬ (s.j + 1 < (rsParams maxit).work.toNat) := by
    rw [hj]; show ¬ (4 + 1 < 5); norm_num
  unfold lanczosStep
  dsimp only
  rw [if_neg hlt]
  refine ⟨_, rfl, hV, hW, hRF, ?_, ?_⟩
  · show s.j + 1 = 5
    rw [hj]
  · show setAt s.B (s.j * (rsParams maxit).work.toNat + s.j) s.S = setAt s.B 24 12
    rw [hj, hS]
    rfl

theorem rs_B_closed : setAt (setAt (setAt rsB0 18 12) 23 7) 24 12 = rsB := by
  funext idx
  simp only [setAt, rsB0, rsB]
  split_ifs <;> first | rfl | omega

/-- The basis-building phase of the only sweep of the resumed example. -/
theorem rs_buildBasis (k : Nat) (conv maxit c : Int) :
    ∃ st2, buildBasis (kerExact k conv) (rsParams maxit)
        (clearB (rsParams maxit) (initLocals (rsParams maxit) (rsMem c))) = Flow.next st2 ∧
      st2.V = eCols 5 ∧ st2.W = eCols 5 ∧ st2.R_F = 5 ∧ st2.j = 5 ∧ st2.B = rsB := by
  have hE : clearB (rsParams maxit) (initLocals (rsParams maxit) (rsMem c)) =
      initLocals (rsParams maxit) (rsMem c) := by
    unfold clearB
    rw [if_neg (by simp [rsParams])]
  obtain ⟨s1, h1, a1, a2, a3, a4, a5, a6, a7⟩ := rs_sweepInitMult k conv maxit
    { initLocals (rsParams maxit) (rsMem c) with j := 3 } rfl rfl rfl rfl rfl
  obtain ⟨s2, h2, b1, b2, b3, b4, b5, b6, b7⟩ := rs_step3 k conv maxit s1 a1 a2 a3 a4 a5 a6
  obtain ⟨s3, h3, c1, c2, c3, c4, c5⟩ := rs_step4 k conv maxit s2 b1 b2 b3 b4 b5 b6
  have hinit : sweepInit (kerExact k conv) (rsParams maxit)
      (initLocals (rsParams maxit) (rsMem c)) = Flow.next s1 := by
    unfold sweepInit
    dsimp only
    rw [if_neg (by simp [rsParams])]
    exact h1
  refine ⟨s3, ?_, c1, c2, c3, c4, ?_⟩
  · rw [hE]
    unfold buildBasis
    rw [hinit]
    have hfuel : (rsParams maxit).work.toNat - s1.j = 2 := by rw [a4]; rfl
    have hl1 : s1.j < (rsParams maxit).work.toNat := by
      rw [a4]; show 3 < 5; norm_num
    have hl2 : s2.j < (rsParams maxit).work.toNat := by
      rw [b4]; show 4 < 5; norm_num
    simp only [hfuel, lanczosLoop, if_pos hl1, h2, if_pos hl2, h3]
  · rw [c5, b7, a7]
    exact rs_B_closed

/-- `rsU diag (rsS) rsVT` is a singular value decomposition of `rsB`: the
product is `rsB`, the columns of `rsU` and the rows of `rsVT` are
orthonormal, and the singular values are positive and descending. -/
theorem rs_svd_valid :
    (∀ r c, r < 5 → c < 5 →
      sumTo 5 (fun l => rsU (r + 5 * l) * rsS l * rsVT (l + 5 * c)) = rsB (c * 5 + r)) ∧
    (∀ a b, a < 5 → b < 5 →
      sumTo 5 (fun r => rsU (r + 5 * a) * rsU (r + 5 * b)) = if a = b then 1 else 0) ∧
    (∀ a b, a < 5 → b < 5 →
      sumTo 5 (fun c => rsVT (a + 5 * c) * rsVT (b + 5 * c)) = if a = b then 1 else 0) ∧
    rsS 0 > rsS 1 ∧ rsS 1 > rsS 2 ∧ rsS 2 > rsS 3 ∧ rsS 3 > rsS 4 ∧ rsS 4 > 0 := by
  refine ⟨?_, ?_, ?_, ?_⟩
  · intro r c hr hc
    interval_cases r <;> interval_cases c <;> norm_num [sumTo, rsU, rsS, rsVT, rsB]
  · intro a b ha hb
    interval_cases a <;> interval_cases b <;> norm_num [sumTo, rsU]
  · intro a b ha hb
    interval_cases a <;> interval_cases b <;> norm_num [sumTo, rsVT]
  · norm_num [rsS]

/-- The small SVD stage of the resumed example: `dgesdd` is handed `rsB`. -/
theorem rs_smallSvd (k : Nat) (conv maxit : Int) (st2 : St ℚ)
    (hB : st2.B = rsB) (hj : st2.j = 5) (hRF : st2.R_F = 5) :
    (smallSvd (kerExact k conv) (rsParams maxit) st2).BU = rsU ∧
    (smallSvd (kerExact k conv) (rsParams maxit) st2).BS = rsS ∧
    (smallSvd (kerExact k conv) (rsParams maxit) st2).BV = rsVT ∧
    (smallSvd (kerExact k conv) (rsParams maxit) st2).k = k ∧
    (smallSvd (kerExact k conv) (rsParams maxit) st2).converged = conv ∧
    (∀ r, r < 5 →
      (smallSvd (kerExact k conv) (rsParams maxit) st2).res r = 5 * rsU (r * 5 + 4)) := by
  have hw : (rsParams maxit).work.toNat = 5 := rfl
  have hguard : (List.range 25).all
      (fun idx => decide (blit st2.BU 0 (5 * 5) st2.B idx = rsB idx)) = true := by
    rw [List.all_eq_true]
    intro idx hidx
    have hlt : idx < 25 := List.mem_range.mp hidx
    have hcond : 0 ≤ idx ∧ idx < 0 + 5 * 5 := ⟨by omega, by omega⟩
    simp only [blit, if_pos hcond, hB, Nat.sub_zero, decide_eq_true_eq]
  have hsv : (kerExact k conv).dgesdd (rsParams maxit).work.toNat
      (blit st2.BU 0 ((rsParams maxit).work.toNat * (rsParams maxit).work.toNat) st2.B)
      (rsParams maxit).lwork st2.BW st2.T =
      { S := rsS, U := rsU, VT := rsVT, work := st2.BW, iwork := st2.T, info := 0 } := by
    rw [hw]
    show rsSvd 5 (blit st2.BU 0 (5 * 5) st2.B) (rsParams maxit).lwork st2.BW st2.T = _
    unfold rsSvd
    rw [if_pos ⟨rfl, hguard⟩]
  refine ⟨?_, ?_, ?_, rfl, rfl, ?_⟩
  · show ((kerExact k conv).dgesdd _ _ _ _ _).U = rsU
    rw [hsv]
  · show ((kerExact k conv).dgesdd _ _ _ _ _).S = rsS
    rw [hsv]
  · show ((kerExact k conv).dgesdd _ _ _ _ _).VT = rsVT
    rw [hsv]
  · intro r hr
    show (if r < st2.j then st2.R_F * ((kerExact k conv).dgesdd _ _ _ _ _).U
      (r * (rsParams maxit).work.toNat + (st2.j - 1)) else st2.res r) = _
    rw [hsv, hj, hRF, if_pos hr, hw]

theorem rs_dims (maxit : Int) :
    (4 : Int) ≤ (rsParams maxit).work ∧ (4 : Int) ≤ (rsParams maxit).n ∧
      (4 : Int) ≤ (rsParams maxit).m := by
  simp [rsParams]

theorem rs_entry (maxit c : Int) :
    clearB (rsParams maxit) (initLocals (rsParams maxit) (rsMem c)) =
      initLocals (rsParams maxit) (rsMem c) := by
  unfold clearB
  rw [if_neg (by simp [rsParams])]

theorem rs_startColumn (maxit c : Int) :
    startColumn (rsParams maxit)
      (clearB (rsParams maxit) (initLocals (rsParams maxit) (rsMem c))) = 3 := by
  rw [rs_entry]
  simp [startColumn, initLocals, rsParams]

/-- The only sweep of the resumed example: it ends by `break` when
`convtests` writes `converged = 1` and by the restart truncation otherwise. -/
theorem rs_sweep (k : Nat) (conv maxit c : Int) :
    ∃ st2, buildBasis (kerExact k conv) (rsParams maxit)
        (clearB (rsParams maxit) (initLocals (rsParams maxit) (rsMem c))) = Flow.next st2 ∧
      st2.V = eCols 5 ∧ st2.W = eCols 5 ∧ st2.R_F = 5 ∧ st2.j = 5 ∧ st2.B = rsB ∧
      (conv ≠ 1 → sweep (kerExact k conv) (rsParams maxit)
        (clearB (rsParams maxit) (initLocals (rsParams maxit) (rsMem c))) =
          Flow.next (restartTruncate (rsParams maxit)
            (smallSvd (kerExact k conv) (rsParams maxit) st2))) ∧
      (conv = 1 → sweep (kerExact k conv) (rsParams maxit)
        (clearB (rsParams maxit) (initLocals (rsParams maxit) (rsMem c))) =
          Flow.brk { smallSvd (kerExact k conv) (rsParams maxit) st2 with
            iter := (smallSvd (kerExact k conv) (rsParams maxit) st2).iter + 1 }) := by
  obtain ⟨st2, hb, h1, h2, h3, h4, h5⟩ := rs_buildBasis k conv maxit c
  have hc : (smallSvd (kerExact k conv) (rsParams maxit) st2).converged = conv := rfl
  refine ⟨st2, hb, h1, h2, h3, h4, h5, fun hne => ?_, fun heq => ?_⟩
  · unfold sweep
    rw [hb]
    dsimp only
    rw [if_neg (by rw [hc]; exact hne)]
  · unfold sweep
    rw [hb]
    dsimp only
    rw [if_pos (by rw [hc]; exact heq)]

/-- The resumed example with `maxit = 1` and a non-converged report: the
call ends in the results block after the restart truncation. -/
theorem rs_irlb (k : Nat) (conv c : Int) (hconv : conv ≠ 1) :
    ∃ st2, buildBasis (kerExact k conv) (rsParams 1)
        (clearB (rsParams 1) (initLocals (rsParams 1) (rsMem c))) = Flow.next st2 ∧
      st2.V = eCols 5 ∧ st2.W = eCols 5 ∧ st2.R_F = 5 ∧ st2.j = 5 ∧ st2.B = rsB ∧
      irlb (kerExact k conv) (rsParams 1) (rsMem c) =
        results (rsParams 1) (restartTruncate (rsParams 1)
          (smallSvd (kerExact k conv) (rsParams 1) st2)) := by
  obtain ⟨st2, hb, h1, h2, h3, h4, h5, hs, _⟩ := rs_sweep k conv 1 c
  refine ⟨st2, hb, h1, h2, h3, h4, h5, ?_⟩
  have hdim : ¬ ((rsParams 1).work < 4 ∨ (rsParams 1).n < 4 ∨ (rsParams 1).m < 4) := by
    simp [rsParams]
  have hfuel : (rsParams 1).maxit.toNat = 1 := rfl
  have hlt : (clearB (rsParams 1) (initLocals (rsParams 1) (rsMem c))).iter <
      (rsParams 1).maxit := by
    rw [entry_iter]
    simp [rsParams]
  unfold irlb
  simp only [if_neg hdim, hfuel, mainLoop, if_pos hlt, hs hconv]

theorem rs_status (k : Nat) (conv c : Int) (hconv : conv ≠ 1) :
    (irlb (kerExact k conv) (rsParams 1) (rsMem c)).status = -2 := by
  obtain ⟨st2, _, _, _, _, _, _, hout⟩ := rs_irlb k conv c hconv
  rw [hout]
  show (if (smallSvd (kerExact k conv) (rsParams 1) st2).converged = 1 then (0 : Int)
    else -2) = -2
  rw [if_neg (show ¬ (smallSvd (kerExact k conv) (rsParams 1) st2).converged = 1 from hconv)]

end Resumed

/-! ## The claims -/

section Claims
variable [LinearOrderedField α]

/-- C1: for a call with `work, m, n ≥ 4` and `maxit ≥ 1` that takes no
degeneracy return (-1, -4, -5), there is a last sweep, number `t` counting
from 0, entered after `t` sweeps on each of which `convtests` wrote a value
other than 1 to `converged`; the status is 0 exactly when `convtests` wrote
`converged = 1` on that last sweep and is -2 otherwise; `ITER = t + 1` is
the number of sweeps run, with `1 ≤ ITER ≤ maxit`, and `ITER = maxit` when
the status is -2.  `convtests` is called on `j`, `nu`, `tol`, the updated
`Smax`, the residual estimates `res` and the address of `k`. -/
theorem irlb_status_iter (ker : Kernels α) (p : Params α) (st : St α)
    (hw : 4 ≤ p.work) (hn : 4 ≤ p.n) (hm : 4 ≤ p.m) (hmax : 1 ≤ p.maxit)
    (hok : (irlb ker p st).status ≠ -1 ∧ (irlb ker p st).status ≠ -4 ∧
      (irlb ker p st).status ≠ -5) :
    ∃ (t : Nat) (stt st2 : St α),
      sweepsFrom ker p t (clearB p (initLocals p st)) = some stt ∧
      buildBasis ker p stt = Flow.next st2 ∧
      (∀ i, i < t → ∃ si si2, sweepsFrom ker p i (clearB p (initLocals p st)) = some si ∧
        buildBasis ker p si = Flow.next si2 ∧
        (ker.convtests si2.j p.nu p.tol (smallSvd ker p si2).Smax (smallSvd ker p si2).res
          si2.k).2 ≠ 1) ∧
      ((irlb ker p st).status = 0 ↔
        (ker.convtests st2.j p.nu p.tol (smallSvd ker p st2).Smax (smallSvd ker p st2).res
          st2.k).2 = 1) ∧
      ((ker.convtests st2.j p.nu p.tol (smallSvd ker p st2).Smax (smallSvd ker p st2).res
          st2.k).2 ≠ 1 →
        (irlb ker p st).status = -2 ∧ ((t : Int) + 1 = p.maxit)) ∧
      (irlb ker p st).mem.ITER = some ((t : Int) + 1) ∧
      (1 : Int) ≤ (t : Int) + 1 ∧ (t : Int) + 1 ≤ p.maxit := by
  obtain ⟨t, stt, ht, hsf, hrest⟩ := irlb_cases ker p st hw hn hm hmax
  obtain ⟨hit, _, _⟩ := sweepsFrom_frame ker p t _ stt hsf
  rw [entry_iter] at hit
  have hearly : ∀ i, i < t → ∃ si si2,
      sweepsFrom ker p i (clearB p (initLocals p st)) = some si ∧
      buildBasis ker p si = Flow.next si2 ∧
      (ker.convtests si2.j p.nu p.tol (smallSvd ker p si2).Smax (smallSvd ker p si2).res
        si2.k).2 ≠ 1 := by
    intro i hi
    obtain ⟨si, si2, e1, e2, e3⟩ := sweepsFrom_earlier ker p t _ stt hsf i hi
    refine ⟨si, si2, e1, e2, ?_⟩
    rw [← smallSvd_report]
    exact e3
  rcases hrest with ⟨c, s1, hb, hout⟩ | ⟨st2, hb, hc, hout⟩ | ⟨st2, hb, hc, ht1, hout⟩
  · exfalso
    obtain ⟨hcode, _, _⟩ := buildBasis_ret ker p stt s1 c hb
    rw [hout] at hok
    rcases hcode with h | h | h
    · exact hok.1 h
    · exact hok.2.1 h
    · exact hok.2.2 h
  · obtain ⟨b1, _⟩ := buildBasis_next ker p stt st2 hb
    have hst : (irlb ker p st).status = 0 := by
      rw [hout]
      show (if (smallSvd ker p st2).converged = 1 then (0 : Int) else -2) = 0
      rw [if_pos hc]
    rw [smallSvd_report] at hc
    refine ⟨t, stt, st2, hsf, hb, hearly, ⟨fun _ => hc, fun _ => hst⟩,
      fun h => absurd hc h, ?_, by omega, by omega⟩
    rw [hout]
    show some (st2.iter + 1) = some ((t : Int) + 1)
    rw [b1, hit]
    simp
  · obtain ⟨b1, _⟩ := buildBasis_next ker p stt st2 hb
    have hst : (irlb ker p st).status = -2 := by
      rw [hout]
      show (if (smallSvd ker p st2).converged = 1 then (0 : Int) else -2) = -2
      rw [if_neg hc]
    rw [smallSvd_report] at hc
    refine ⟨t, stt, st2, hsf, hb, hearly, ⟨fun h => ?_, fun h => absurd h hc⟩,
      fun _ => ⟨hst, ht1⟩, ?_, by omega, by omega⟩
    · rw [hst] at h
      omega
    · rw [hout]
      show some (st2.iter + 1) = some ((t : Int) + 1)
      rw [b1, hit]
      simp

/-- C1, witness: the resumed example with `maxit = 1` and a non-converged
report returns -2 and reports one sweep. -/
theorem irlb_status_iter_witness :
    (irlb (kerExact 4 0) (rsParams 1) (rsMem 0)).status = -2 ∧
    ∃ t : Nat, (irlb (kerExact 4 0) (rsParams 1) (rsMem 0)).mem.ITER = some ((t : Int) + 1) ∧
      (1 : Int) ≤ (t : Int) + 1 ∧ (t : Int) + 1 ≤ 1 :=
  ⟨rs_status 4 0 0 (by decide),
    (irlb_status_iter (kerExact 4 0) (rsParams 1) (rsMem 0) (rs_dims 1).1
      (rs_dims 1).2.1 (rs_dims 1).2.2 (by simp [rsParams])
      (by rw [rs_status 4 0 0 (by decide)]; simp)).elim
      fun t ht => ht.elim fun _ hs => hs.elim fun _ h => ⟨t, h.2.2.2.2.2.1, h.2.2.2.2.2.2⟩⟩

/-- C2 (what the code does): with `maxit = 0` the main iteration is skipped
and line 428 reads the local `converged`, which no statement has written;
when the word it occupies holds 1 the call returns 0 although no sweep ran:
`ITER` and `MPROD` are 0 and `s` is a copy of the unwritten work array `BS`
(for every kernel: none is called). -/
theorem irlb_no_sweep_returns_zero (ker : Kernels ℚ) :
    (irlb ker (rsParams 0) (rsMem 1)).status = 0 ∧
    (irlb ker (rsParams 0) (rsMem 1)).mem.ITER = some 0 ∧
    (irlb ker (rsParams 0) (rsMem 1)).mem.MPROD = some 0 ∧
    (irlb ker (rsParams 0) (rsMem 1)).mem.mprod = 0 ∧
    ∀ i, i < (rsParams 0).nu → (irlb ker (rsParams 0) (rsMem 1)).mem.s i = (rsMem 1).BS i := by
  have hdim : ¬ ((rsParams 0).work < 4 ∨ (rsParams 0).n < 4 ∨ (rsParams 0).m < 4) := by
    simp [rsParams]
  rw [irlb_maxit_nonpos ker (rsParams 0) (rsMem 1) hdim (by simp [rsParams]), rs_entry]
  refine ⟨rfl, rfl, rfl, rfl, ?_⟩
  intro i hi
  exact (results_outputs (rsParams 0) (initLocals (rsParams 0) (rsMem 1))).1 i hi

/-- Supporting fact for C2: with `maxit ≥ 1`, a call that returns 0 (with
`nu ≤ work`) outputs the Ritz approximation of its last sweep: with `st2` the
state left by that sweep's basis-building phase and `BS`, `BU`, `BV` the
factors `dgesdd` returned for its `B`, `s[i] = BS[i]` for `i < nu`, the
first `nu` columns of `U` are `W * BU[:, 0..nu-1]` and the first `nu`
columns of `V` are `V_basis * (BV[0..nu-1, :])ᵀ`. -/
theorem irlb_converged_outputs (ker : Kernels α) (p : Params α) (st : St α)
    (hmax : 1 ≤ p.maxit) (h0 : (irlb ker p st).status = 0) (hnu : (p.nu : Int) ≤ p.work) :
    ∃ (t : Nat) (stt st2 : St α),
      sweepsFrom ker p t (clearB p (initLocals p st)) = some stt ∧
      buildBasis ker p stt = Flow.next st2 ∧
      (irlb ker p st).mem.ITER = some ((t : Int) + 1) ∧
      (smallSvd ker p st2).BS = (ker.dgesdd p.work.toNat
        (blit st2.BU 0 (p.work.toNat * p.work.toNat) st2.B) p.lwork st2.BW st2.T).S ∧
      (smallSvd ker p st2).BU = (ker.dgesdd p.work.toNat
        (blit st2.BU 0 (p.work.toNat * p.work.toNat) st2.B) p.lwork st2.BW st2.T).U ∧
      (smallSvd ker p st2).BV = (ker.dgesdd p.work.toNat
        (blit st2.BU 0 (p.work.toNat * p.work.toNat) st2.B) p.lwork st2.BW st2.T).VT ∧
      (∀ i, i < p.nu → (irlb ker p st).mem.s i = (smallSvd ker p st2).BS i) ∧
      (∀ i c, i < p.m.toNat → c < p.nu →
        (irlb ker p st).mem.U (i + p.m.toNat * c) =
          sumTo p.work.toNat (fun l =>
            st2.W (i + p.m.toNat * l) * (smallSvd ker p st2).BU (l + p.work.toNat * c))) ∧
      (∀ i c, i < p.n.toNat → c < p.nu →
        (irlb ker p st).mem.V (i + p.n.toNat * c) =
          sumTo p.work.toNat (fun l =>
            st2.V (i + p.n.toNat * l) * (smallSvd ker p st2).BV (c + p.work.toNat * l))) := by
  have hdim : ¬ (p.work < 4 ∨ p.n < 4 ∨ p.m < 4) := by
    intro h
    rw [irlb_invalid ker p st h] at h0
    simp at h0
  obtain ⟨t, stt, ht, hsf, hrest⟩ :=
    irlb_cases ker p st (by omega) (by omega) (by omega) hmax
  obtain ⟨hit, _, _⟩ := sweepsFrom_frame ker p t _ stt hsf
  rw [entry_iter] at hit
  rcases hrest with ⟨c, s1, hb, hout⟩ | ⟨st2, hb, hc, hout⟩ | ⟨st2, hb, hc, ht1, hout⟩
  · exfalso
    obtain ⟨hcode, _, _⟩ := buildBasis_ret ker p stt s1 c hb
    rw [hout] at h0
    simp only at h0
    omega
  · obtain ⟨b1, _⟩ := buildBasis_next ker p stt st2 hb
    obtain ⟨r1, r2, r3⟩ := results_outputs p
      { smallSvd ker p st2 with iter := (smallSvd ker p st2).iter + 1 }
    refine ⟨t, stt, st2, hsf, hb, ?_, rfl, rfl, rfl, ?_, ?_, ?_⟩
    · rw [hout]
      show some (st2.iter + 1) = some ((t : Int) + 1)
      rw [b1, hit]
      simp
    · intro i hi
      rw [hout]
      exact r1 i hi
    · intro i c hi hc
      rw [hout]
      exact r2 i c hi hc
    · intro i c hi hc
      rw [hout]
      exact r3 i c hi hc
  · exfalso
    rw [hout] at h0
    have : (results p (restartTruncate p (smallSvd ker p st2))).status = -2 := by
      show (if (smallSvd ker p st2).converged = 1 then (0 : Int) else -2) = -2
      rw [if_neg hc]
    rw [this] at h0
    simp at h0

/-- C9: a call with `work < 4` or `n < 4` or `m < 4` returns -1 at once: the
multiply counter is still 0 and every array and cell of the caller
(`scale`, `s`, `U`, `V`, `ITER`, `MPROD`, `V1`, `U1`, `W`, `F`, `B`, `BU`,
`BV`, `BS`, `BW`, `res`, `T`) holds what it held on entry, whatever the
other arguments are. -/
theorem irlb_invalid_dims (ker : Kernels α) (p : Params α) (st : St α)
    (h : p.work < 4 ∨ p.n < 4 ∨ p.m < 4) :
    (irlb ker p st).status = -1 ∧ (irlb ker p st).mem.mprod = 0 ∧
      (irlb ker p st).mem.scale = st.scale ∧
      (irlb ker p st).mem.s = st.s ∧ (irlb ker p st).mem.U = st.U ∧
      (irlb ker p st).mem.V = st.V ∧ (irlb ker p st).mem.ITER = st.ITER ∧
      (irlb ker p st).mem.MPROD = st.MPROD ∧ (irlb ker p st).mem.V1 = st.V1 ∧
      (irlb ker p st).mem.U1 = st.U1 ∧ (irlb ker p st).mem.W = st.W ∧
      (irlb ker p st).mem.F = st.F ∧ (irlb ker p st).mem.B = st.B ∧
      (irlb ker p st).mem.BU = st.BU ∧ (irlb ker p st).mem.BV = st.BV ∧
      (irlb ker p st).mem.BS = st.BS ∧ (irlb ker p st).mem.BW = st.BW ∧
      (irlb ker p st).mem.res = st.res ∧ (irlb ker p st).mem.T = st.T := by
  rw [irlb_invalid ker p st h]
  exact ⟨rfl, rfl, rfl, rfl, rfl, rfl, rfl, rfl, rfl, rfl, rfl, rfl, rfl, rfl, rfl, rfl,
    rfl, rfl, rfl⟩

/-- C3: in exact arithmetic, for a dense `A`, a scale vector with non-zero
entries (absent: ones), a shift `s` (absent: 0; present only when `m = n`)
and a center vector `c` (absent: 0), the forward multiply of any column
`v` of `V` writes `(A + s I - 1 cᵀ) diag(1/scale) v` into the matching column
of `W` (this is the code of both the pre-loop and the in-loop site), the
transpose multiply of any column `w` of `W` writes
`diag(1/scale) (A + s I)ᵀ w` into `F`, independently of `center`, and
without centering `⟨fwd v, w⟩ = ⟨v, tr w⟩`. -/
theorem multiply_operator (ker : Kernels α) (p : Params α) (st : St α) (c j : Nat)
    (hdense : p.mult ≠ 1) (hshift : p.shift ≠ none → p.m.toNat = p.n.toNat)
    (hscale : ∀ l, l < p.n.toNat → scaleVal st l ≠ 0) :
    (∀ i, i < p.m.toNat →
      (forwardMultiply ker p st c).W (c * p.m.toNat + i) =
        sumTo p.n.toNat (fun l => (shiftedEntry p i l - centerVal p l) *
          (1 / scaleVal st l * st.V (c * p.n.toNat + l)))) ∧
    (∀ l, l < p.n.toNat →
      (transposeMultiply ker p st j).F l =
        1 / scaleVal st l *
          sumTo p.m.toNat (fun i => shiftedEntry p i l * st.W (j * p.m.toNat + i))) ∧
    (p.center = none →
      sumTo p.m.toNat (fun i =>
          (forwardMultiply ker p st c).W (c * p.m.toNat + i) * st.W (j * p.m.toNat + i)) =
        sumTo p.n.toNat (fun l =>
          st.V (c * p.n.toNat + l) * (transposeMultiply ker p st j).F l)) := by
  refine ⟨fun i hi => forward_formula ker p st c i hdense hshift hi,
    fun l hl => transpose_entry ker p st j l hdense hl, fun hcen => ?_⟩
  have hL : sumTo p.m.toNat (fun i =>
      (forwardMultiply ker p st c).W (c * p.m.toNat + i) * st.W (j * p.m.toNat + i)) =
      ∑ i in Finset.range p.m.toNat, ∑ l in Finset.range p.n.toNat,
        shiftedEntry p i l * (1 / scaleVal st l * st.V (c * p.n.toNat + l)) *
          st.W (j * p.m.toNat + i) := by
    rw [sumTo_eq_sum]
    refine Finset.sum_congr rfl (fun i hi => ?_)
    rw [forward_formula ker p st c i hdense hshift (Finset.mem_range.mp hi), sumTo_eq_sum,
      Finset.sum_mul]
    refine Finset.sum_congr rfl (fun l _ => ?_)
    simp [centerVal, hcen]
  have hR : sumTo p.n.toNat (fun l =>
      st.V (c * p.n.toNat + l) * (transposeMultiply ker p st j).F l) =
      ∑ l in Finset.range p.n.toNat, ∑ i in Finset.range p.m.toNat,
        shiftedEntry p i l * (1 / scaleVal st l * st.V (c * p.n.toNat + l)) *
          st.W (j * p.m.toNat + i) := by
    rw [sumTo_eq_sum]
    refine Finset.sum_congr rfl (fun l hl => ?_)
    rw [transpose_entry ker p st j l hdense (Finset.mem_range.mp hl), sumTo_eq_sum,
      Finset.mul_sum, Finset.mul_sum]
    refine Finset.sum_congr rfl (fun i _ => ?_)
    ring
  rw [hL, hR, Finset.sum_comm]

/-- C4 (as the code has it): a fresh call (`restart = 0`) with valid
dimensions, `maxit ≥ 1` and `eps > 0` whose starting vector has norm below
`2 * eps` returns status -1; no multiply was performed and `ITER`, `MPROD`
are left as they were. -/
theorem irlb_zero_start (ker : Kernels α) (p : Params α) (st : St α)
    (hw : 4 ≤ p.work) (hn : 4 ≤ p.n) (hm : 4 ≤ p.m) (hmax : 1 ≤ p.maxit)
    (hr : p.restart = 0) (heps : 0 < p.eps)
    (hd : ker.dnrm2 p.n.toNat st.V < 2 * p.eps) :
    (irlb ker p st).status = -1 ∧ (irlb ker p st).mem.mprod = 0 ∧
      (irlb ker p st).mem.ITER = st.ITER ∧ (irlb ker p st).mem.MPROD = st.MPROD := by
  rw [irlb_small_start ker p st hw hn hm hmax hr hd]
  refine ⟨rfl, ?_, ?_, ?_⟩
  · show (clearB p (initLocals p st)).mprod = 0
    unfold clearB
    split_ifs <;> rfl
  · exact (entry_cells p st).1
  · exact (entry_cells p st).2

/-- C4, witness: the zero starting vector with the example kernels. -/
theorem irlb_zero_start_witness :
    (irlb (kerL1 2 0) (exParams 1 0 1) (exMem 0)).status = -1 ∧
      (irlb (kerL1 2 0) (exParams 1 0 1) (exMem 0)).mem.mprod = 0 ∧
      (irlb (kerL1 2 0) (exParams 1 0 1) (exMem 0)).mem.ITER = (exMem 0).ITER ∧
      (irlb (kerL1 2 0) (exParams 1 0 1) (exMem 0)).mem.MPROD = (exMem 0).MPROD :=
  irlb_zero_start (kerL1 2 0) (exParams 1 0 1) (exMem 0) (ex_dims 1 0 1).1 (ex_dims 1 0 1).2.1
    (ex_dims 1 0 1).2.2 (by simp [exParams]) rfl (by norm_num [exParams]) ex_zero_start_norm

/-- C4, counterexample: it is not so that every fresh call with valid
dimensions, `maxit ≥ 1`, `eps > 0` and a starting vector of norm below
`2 * eps` returns -4: the zero starting vector gives -1. -/
theorem irlb_zero_start_not_minus_four :
    ¬ ∀ (ker : Kernels ℚ) (p : Params ℚ) (st : St ℚ),
      4 ≤ p.work → 4 ≤ p.n → 4 ≤ p.m → 1 ≤ p.maxit → p.restart = 0 → 0 < p.eps →
      ker.dnrm2 p.n.toNat st.V < 2 * p.eps → (irlb ker p st).status = -4 := by
  intro h
  have h4 := h (kerL1 2 0) (exParams 1 0 1) (exMem 0) (ex_dims 1 0 1).1 (ex_dims 1 0 1).2.1
    (ex_dims 1 0 1).2.2 (by simp [exParams]) rfl (by norm_num [exParams]) ex_zero_start_norm
  rw [irlb_small_start (kerL1 2 0) (exParams 1 0 1) (exMem 0) (ex_dims 1 0 1).1
    (ex_dims 1 0 1).2.1 (ex_dims 1 0 1).2.2 (by simp [exParams]) rfl ex_zero_start_norm] at h4
  simp at h4

/-- C5 (what the code does): in a fresh call with valid dimensions,
`maxit ≥ 1` and a starting vector of norm at least `2 * eps`, when the norm
`S` of the first column of `W` at the very first inner step of the very
first sweep is below `eps`, the status is -5 (the test for -4 asks for
`j == 1`, and `j` is 0 there). -/
theorem irlb_first_step_status (ker : Kernels α) (p : Params α) (st : St α)
    (hw : 4 ≤ p.work) (hn : 4 ≤ p.n) (hm : 4 ≤ p.m) (hmax : 1 ≤ p.maxit)
    (hr : p.restart = 0) (hd : ¬ ker.dnrm2 p.n.toNat st.V < 2 * p.eps)
    (hS : firstColumnNorm ker p st < p.eps) :
    (irlb ker p st).status = -5 := by
  obtain ⟨s1, h1, _⟩ := irlb_first_step_small ker p st hw hn hm hmax hr hd hS
  rw [h1]

/-- C5, witness: the zero 5 x 5 matrix and the first coordinate vector. -/
theorem irlb_first_step_status_witness :
    (irlb (kerL1 2 0) (exParams 0 0 1) (exMem 1)).status = -5 :=
  irlb_first_step_status (kerL1 2 0) (exParams 0 0 1) (exMem 1) (ex_dims 0 0 1).1
    (ex_dims 0 0 1).2.1 (ex_dims 0 0 1).2.2 (by simp [exParams]) rfl ex_start_norm
    ex_first_column_norm

/-- C6 (what the code does): a call whose status is neither 0 nor -2 (the
returns -1, -4, -5) leaves the caller's cells `ITER` and `MPROD` as they
were on entry: they are not written. -/
theorem irlb_error_leaves_counters (ker : Kernels α) (p : Params α) (st : St α)
    (h0 : (irlb ker p st).status ≠ 0) (h2 : (irlb ker p st).status ≠ -2) :
    (irlb ker p st).mem.ITER = st.ITER ∧ (irlb ker p st).mem.MPROD = st.MPROD := by
  by_cases hdim : p.work < 4 ∨ p.n < 4 ∨ p.m < 4
  · rw [irlb_invalid ker p st hdim]
    exact ⟨rfl, rfl⟩
  · by_cases hmax : 1 ≤ p.maxit
    · obtain ⟨t, stt, ht, hsf, hrest⟩ :=
        irlb_cases ker p st (by omega) (by omega) (by omega) hmax
      obtain ⟨_, hI, hM⟩ := sweepsFrom_frame ker p t _ stt hsf
      obtain ⟨eI, eM⟩ := entry_cells p st
      rcases hrest with ⟨c, s1, hb, hout⟩ | ⟨st2, hb, hc, hout⟩ | ⟨st2, hb, hc, ht1, hout⟩
      · obtain ⟨_, rI, rM⟩ := buildBasis_ret ker p stt s1 c hb
        rw [hout]
        exact ⟨by rw [rI, hI, eI], by rw [rM, hM, eM]⟩
      · exfalso
        apply h0
        rw [hout]
        show (if (smallSvd ker p st2).converged = 1 then (0 : Int) else -2) = 0
        rw [if_pos hc]
      · exfalso
        apply h2
        rw [hout]
        show (if (smallSvd ker p st2).converged = 1 then (0 : Int) else -2) = -2
        rw [if_neg hc]
    · exfalso
      rw [irlb_maxit_nonpos ker p st hdim (by omega)] at h0 h2
      rcases results_status p (clearB p (initLocals p st)) with h | h
      · exact h0 h
      · exact h2 h

/-- C6, witness: the call on the zero matrix returns -5 after one multiply
and `ITER`, `MPROD` still hold nothing. -/
theorem irlb_error_leaves_counters_witness :
    (irlb (kerL1 2 0) (exParams 0 0 1) (exMem 1)).mem.ITER = none ∧
      (irlb (kerL1 2 0) (exParams 0 0 1) (exMem 1)).mem.MPROD = none :=
  irlb_error_leaves_counters (kerL1 2 0) (exParams 0 0 1) (exMem 1)
    (by
      obtain ⟨s1, h1, _⟩ := irlb_first_step_small (kerL1 2 0) (exParams 0 0 1) (exMem 1)
        (ex_dims 0 0 1).1 (ex_dims 0 0 1).2.1 (ex_dims 0 0 1).2.2 (by simp [exParams]) rfl
        ex_start_norm ex_first_column_norm
      rw [h1]; simp)
    (by
      obtain ⟨s1, h1, _⟩ := irlb_first_step_small (kerL1 2 0) (exParams 0 0 1) (exMem 1)
        (ex_dims 0 0 1).1 (ex_dims 0 0 1).2.1 (ex_dims 0 0 1).2.2 (by simp [exParams]) rfl
        ex_start_norm ex_first_column_norm
      rw [h1]; simp)

/-- C7 (as the code has it): the pre-loop site performs one forward
multiply; an inner step `j` with `j + 1 < work` performs two multiplies (the
transpose one and the forward one for column `j + 1`) and the last inner
step `j = work - 1` performs the transpose multiply only; so a sweep that
completes without an error return, starting at column `j0 < work`, increases
`mprod` by exactly `2 * (work - j0)`. -/
theorem sweep_mprod (ker : Kernels α) (p : Params α) (st st1 : St α)
    (hdone : sweep ker p st = Flow.next st1 ∨ sweep ker p st = Flow.brk st1)
    (hj : startColumn p st < p.work.toNat) :
    st1.mprod = st.mprod + 2 * ((p.work.toNat : Int) - (startColumn p st : Int)) ∧
    (∀ s s1, sweepInit ker p s = Flow.next s1 → s1.mprod = s.mprod + 1) ∧
    (∀ s s1, lanczosStep ker p s = Flow.next s1 →
      s1.mprod = s.mprod + (if s.j + 1 < p.work.toNat then 2 else 1)) :=
  ⟨sweep_done_mprod ker p st st1 hdone hj,
    fun s s1 h => (sweepInit_next ker p s s1 h).2.1,
    fun s s1 h => (lanczosStep_next ker p s s1 h).2.1⟩

/-- C7, witness: the sweep of the resumed example (`work = 5`, `j0 = 3`)
performs 4 multiplies. -/
theorem sweep_mprod_witness :
    ∃ st1, sweep (kerExact 4 0) (rsParams 1)
        (clearB (rsParams 1) (initLocals (rsParams 1) (rsMem 0))) = Flow.next st1 ∧
      st1.mprod = 0 + 2 * (5 - 3) :=
  (rs_sweep 4 0 1 0).elim fun st2 h =>
    ⟨_, h.2.2.2.2.2.2.1 (by decide), by
      have h4 := (sweep_mprod (kerExact 4 0) (rsParams 1)
        (clearB (rsParams 1) (initLocals (rsParams 1) (rsMem 0))) _
        (Or.inl (h.2.2.2.2.2.2.1 (by decide)))
        (by rw [rs_startColumn]; show 3 < 5; norm_num)).1
      rw [rs_startColumn, rs_entry] at h4
      exact h4⟩

/-- C7, counterexample: the resumed call on the bidiagonal matrix `rsA`
starts its sweep at column `j0 = 3` with `work = 5`; whatever pair
`convtests` writes, the sweep completes without an error return and
increases `mprod` from 0 to 4, not to `2 * (5 - 3) + 1 = 5`. -/
theorem sweep_mprod_not_odd :
    startColumn (rsParams 1)
      (clearB (rsParams 1) (initLocals (rsParams 1) (rsMem 0))) = 3 ∧
    (rsParams 1).work.toNat = 5 ∧
    (clearB (rsParams 1) (initLocals (rsParams 1) (rsMem 0))).mprod = 0 ∧
    ∀ (k : Nat) (conv : Int), ∃ st1,
      (sweep (kerExact k conv) (rsParams 1)
          (clearB (rsParams 1) (initLocals (rsParams 1) (rsMem 0))) = Flow.next st1 ∨
        sweep (kerExact k conv) (rsParams 1)
          (clearB (rsParams 1) (initLocals (rsParams 1) (rsMem 0))) = Flow.brk st1) ∧
      st1.mprod = 4 ∧ st1.mprod ≠ 2 * (5 - 3) + 1 := by
  refine ⟨rs_startColumn 1 0, rfl, by rw [rs_entry]; rfl, ?_⟩
  intro k conv
  obtain ⟨st2, _, _, _, _, _, _, hne, heq⟩ := rs_sweep k conv 1 0
  have key : ∀ st1, (sweep (kerExact k conv) (rsParams 1)
        (clearB (rsParams 1) (initLocals (rsParams 1) (rsMem 0))) = Flow.next st1 ∨
      sweep (kerExact k conv) (rsParams 1)
        (clearB (rsParams 1) (initLocals (rsParams 1) (rsMem 0))) = Flow.brk st1) →
      st1.mprod = 4 := by
    intro st1 hdone
    have h4 := sweep_done_mprod (kerExact k conv) (rsParams 1) _ st1 hdone
      (by rw [rs_startColumn]; show 3 < 5; norm_num)
    rw [rs_startColumn, rs_entry] at h4
    rw [h4]
    show (0 : Int) + 2 * (((5 : Nat) : Int) - ((3 : Nat) : Int)) = 4
    norm_num
  by_cases hc : conv = 1
  · refine ⟨_, Or.inr (heq hc), key _ (Or.inr (heq hc)), ?_⟩
    rw [key _ (Or.inr (heq hc))]
    norm_num
  · refine ⟨_, Or.inl (hne hc), key _ (Or.inl (hne hc)), ?_⟩
    rw [key _ (Or.inl (hne hc))]
    norm_num

/-- C10 (as the code has it): after the restart truncation of a state with
retained dimension `k < work`, the `work x work` matrix `B` (column-major)
is zero except for the `k` diagonal entries `B[i,i] = BS[i]` and the `k`
entries `B[i,k] = res[i]`, `i < k`, of column `k`, which hold the residual
estimates of the retained Ritz pairs. -/
theorem restart_B_entries (p : Params α) (st : St α) (r c : Nat)
    (hk : st.k < p.work.toNat) (hr : r < p.work.toNat) (hc : c < p.work.toNat) :
    (restartTruncate p st).B (c * p.work.toNat + r) =
      if r < st.k ∧ c = st.k then st.res r
      else if r < st.k ∧ c = r then st.BS r
      else 0 :=
  restartTruncate_B_cell p st r c hk hr hc

/-- C10, witness: entry `(0, 2)` of `B` after the restart truncation of a
state with `k = 2`, `work = 4`. -/
theorem restart_B_entries_witness :
    (restartTruncate (exParams 1 0 1) { exMem 1 with k := 2, res := fun _ => 7 }).B
        (2 * (exParams 1 0 1).work.toNat + 0) =
      if 0 < 2 ∧ 2 = 2 then (7 : ℚ) else if 0 < 2 ∧ 2 = 0 then 0 else 0 :=
  restart_B_entries (exParams 1 0 1) { exMem 1 with k := 2, res := fun _ => 7 } 0 2
    (by simp [exParams]) (by simp [exParams]) (by simp [exParams])

/-- C10, counterexample: in the resumed call on `rsA`, whose sweep hands
`dgesdd` the matrix `rsB`, for every non-converged report of `convtests`
with retained dimension `2 ≤ k < work = 5` the matrix `B` after the restart
truncation has two non-zero entries off the diagonal, `B[0,k] = 3` and
`B[1,k] = -4` (the residual estimates of the Ritz values 16 and 9), not a
single one. -/
theorem restart_B_two_offdiagonal :
    (rsParams 1).work.toNat = 5 ∧
    ∀ (k : Nat) (conv : Int), conv ≠ 1 → 2 ≤ k → k < 5 →
      ∃ st1, sweep (kerExact k conv) (rsParams 1)
          (clearB (rsParams 1) (initLocals (rsParams 1) (rsMem 0))) = Flow.next st1 ∧
        st1.k = k ∧ st1.B (k * 5 + 0) = 3 ∧ st1.B (k * 5 + 1) = -4 := by
  refine ⟨rfl, ?_⟩
  intro k conv hconv hk2 hk5
  obtain ⟨st2, _, _, _, hRF, hj, hB, hne, _⟩ := rs_sweep k conv 1 0
  obtain ⟨_, _, _, hk, _, hres⟩ := rs_smallSvd k conv 1 st2 hB hj hRF
  have hw : (rsParams 1).work.toNat = 5 := rfl
  have hklt : (smallSvd (kerExact k conv) (rsParams 1) st2).k < (rsParams 1).work.toNat := by
    rw [hk, hw]; exact hk5
  have e0 := restartTruncate_B_cell (rsParams 1)
    (smallSvd (kerExact k conv) (rsParams 1) st2) 0 k hklt (by rw [hw]; norm_num)
    (by rw [hw]; exact hk5)
  have e1 := restartTruncate_B_cell (rsParams 1)
    (smallSvd (kerExact k conv) (rsParams 1) st2) 1 k hklt (by rw [hw]; norm_num)
    (by rw [hw]; exact hk5)
  rw [hw, hk, hres 0 (by norm_num)] at e0
  rw [hw, hk, hres 1 (by norm_num)] at e1
  refine ⟨_, hne hconv, hk, ?_, ?_⟩
  · rw [e0, if_pos ⟨by omega, rfl⟩]
    norm_num [rsU]
  · rw [e1, if_pos ⟨by omega, rfl⟩]
    norm_num [rsU]

/-- C8 (what the code does): the resumed call on `rsA` with `maxit = 1`,
for every non-converged report of `convtests` with `k ≥ 1`, returns -2, and
with `st2` the state left by the basis-building phase of its only sweep the
output `U[0,2]` is 0 while entry `(0,2)` of `W * BU` is 1: the results block
runs on the bases that the restart truncation has already replaced by
`W * BU`. -/
theorem irlb_not_converged_U (k : Nat) (conv : Int) (hconv : conv ≠ 1) (hk : 1 ≤ k) :
    (irlb (kerExact k conv) (rsParams 1) (rsMem 0)).status = -2 ∧
    ∃ st2, buildBasis (kerExact k conv) (rsParams 1)
        (clearB (rsParams 1) (initLocals (rsParams 1) (rsMem 0))) = Flow.next st2 ∧
      (irlb (kerExact k conv) (rsParams 1) (rsMem 0)).mem.U (0 + 6 * 2) = 0 ∧
      sumTo 5 (fun l => st2.W (0 + 6 * l) *
        (smallSvd (kerExact k conv) (rsParams 1) st2).BU (l + 5 * 2)) = 1 := by
  refine ⟨rs_status k conv 0 hconv, ?_⟩
  obtain ⟨st2, hb, _, hW, hRF, hj, hB, hout⟩ := rs_irlb k conv 0 hconv
  obtain ⟨hBU, _, _, hk3, _, _⟩ := rs_smallSvd k conv 1 st2 hB hj hRF
  have hm6 : (rsParams 1).m.toNat = 6 := rfl
  have hw5 : (rsParams 1).work.toNat = 5 := rfl
  have hcol := restartTruncate_W_cols (rsParams 1)
    (smallSvd (kerExact k conv) (rsParams 1) st2) 0 0 (by rw [hm6]; norm_num)
    (by rw [hk3]; exact hk)
  have hj3 : (smallSvd (kerExact k conv) (rsParams 1) st2).j = 5 := hj
  have hW3 : (smallSvd (kerExact k conv) (rsParams 1) st2).W = eCols 5 := hW
  rw [hj3, hm6, hw5, hBU, hW3] at hcol
  have hcol0 : sumTo 5 (fun l1 => eCols 5 (0 + 6 * l1) * rsU (l1 + 5 * 0)) = 0 := by
    norm_num [sumTo, eCols, rsU]
  rw [hcol0] at hcol
  obtain ⟨_, r2, _⟩ := results_outputs (rsParams 1)
    (restartTruncate (rsParams 1) (smallSvd (kerExact k conv) (rsParams 1) st2))
  have hU := r2 0 2 (by rw [hm6]; norm_num) (by show 2 < 4; norm_num)
  have hrBU : (restartTruncate (rsParams 1)
      (smallSvd (kerExact k conv) (rsParams 1) st2)).BU = rsU := hBU
  rw [hm6, hw5, hrBU] at hU
  have hsum : sumTo 5 (fun l => (restartTruncate (rsParams 1)
      (smallSvd (kerExact k conv) (rsParams 1) st2)).W (0 + 6 * l) * rsU (l + 5 * 2)) =
      (restartTruncate (rsParams 1)
        (smallSvd (kerExact k conv) (rsParams 1) st2)).W (0 + 6 * 0) := by
    norm_num [sumTo, rsU]
  rw [hsum, hcol] at hU
  refine ⟨st2, hb, ?_, ?_⟩
  · rw [hout]
    exact hU
  · rw [hBU, hW]
    norm_num [sumTo, eCols, rsU]

/-- C8, witness: the report `k = 4`, `converged = 0`. -/
theorem irlb_not_converged_U_witness :
    (irlb (kerExact 4 0) (rsParams 1) (rsMem 0)).status = -2 ∧
      (irlb (kerExact 4 0) (rsParams 1) (rsMem 0)).mem.U (0 + 6 * 2) = 0 :=
  have h := irlb_not_converged_U 4 0 (by decide) (by decide)
  ⟨h.1, h.2.elim fun _ h2 => h2.2.1⟩

/-- C3, witness: row 2 of the forward multiply of the dense example operator
without scale, shift or center. -/
theorem multiply_operator_witness :
    (forwardMultiply (kerUnit 2 0) (exParams 1 0 1) (exMem 1) 0).W
        (0 * (exParams 1 0 1).m.toNat + 2) =
      sumTo (exParams 1 0 1).n.toNat (fun l =>
        (shiftedEntry (exParams 1 0 1) 2 l - centerVal (exParams 1 0 1) l) *
          (1 / scaleVal (exMem 1) l * (exMem 1).V (0 * (exParams 1 0 1).n.toNat + l))) :=
  (multiply_operator (kerUnit 2 0) (exParams 1 0 1) (exMem 1) 0 0 (by simp [exParams])
    (by simp [exParams]) (by intro l _; simp [scaleVal, exMem])).1 2 (by simp [exParams])

/-- C9, witness: `work = 3`. -/
theorem irlb_invalid_dims_witness :
    (irlb (kerUnit 2 0) { exParams 1 0 1 with work := 3 } (exMem 1)).status = -1 ∧
      (irlb (kerUnit 2 0) { exParams 1 0 1 with work := 3 } (exMem 1)).mem.V = (exMem 1).V :=
  have h := irlb_invalid_dims (kerUnit 2 0) { exParams 1 0 1 with work := 3 } (exMem 1)
    (Or.inl (by simp))
  ⟨h.1, h.2.2.2.2.2.1⟩

end Claims

end Irlb
